import Mathlib

/-!
Verification development for the transaction call-trace core of the etherlib
repository (packages txtracev2 / txtrace).

Shallow embedding conventions:
* Go byte slices become `List Nat`; `common.Address` (20 bytes) and
  `common.Hash` (32 bytes) become `List Nat` with length constraints stated
  where a claim needs them.
* Go pointers that may be nil become `Option`; `*big.Int` fields (which in
  this program only ever hold non-negative quantities) become `Option Nat`.
* `uint8/uint32/uint64` become `Nat`; the one place the source checks for
  wrap-around (`nonce+1 < nonce`) is modelled with an explicit `% 2^64`.
* A Go nil-pointer dereference (panic) is modelled by an `Option`-valued
  function returning `none`.
-/

set_option maxHeartbeats 1000000

namespace EtherTrace

/-- Addresses and hashes are byte lists (20 resp. 32 bytes in the source). -/
abbrev Bytes := List Nat

/-! ## Internal (storage-side) data model — internal_types.go -/
def CallTypeCreate : Nat := 0

def CallTypeCall : Nat := 1

def CallTypeCallCode : Nat := 2

def CallTypeDelegateCall : Nat := 3

def CallTypeStaticCall : Nat := 4

def CallTypeSuicide : Nat := 5

def Call : String := "call"

def CallCode : String := "callcode"

def DelegateCall : String := "delegatecall"

def StaticCall : String := "staticcall"

/-- `InternalAction` from internal_types.go. `fromAddr`/`toAddr` stand for the
Go fields `From`/`To` (`from` is reserved in Lean). -/
structure InternalAction where
  callType : Nat
  fromAddr : Option Bytes := none
  toAddr : Option Bytes := none
  value : Option Nat := none
  gas : Nat := 0
  init : Bytes := []
  input : Bytes := []
  address : Option Bytes := none
  refundAddress : Option Bytes := none
  balance : Option Nat := none
deriving Repr, DecidableEq

/-- `InternalTraceActionResult` from internal_types.go. -/
structure InternalTraceActionResult where
  gasUsed : Nat := 0
  output : Bytes := []
  code : Bytes := []
  address : Option Bytes := none
deriving Repr, DecidableEq

/-- `InternalActionTrace` from internal_types.go. -/
structure InternalActionTrace where
  action : InternalAction
  result : Option InternalTraceActionResult := none
  error : String := ""
  traceAddress : List Nat := []
  subtraces : Nat := 0
deriving Repr, DecidableEq

/-- `InternalActionTraces` from internal_types.go (the per-transaction set). -/
structure InternalActionTraces where
  traces : List InternalActionTrace := []
  blockHash : Bytes := []
  blockNumber : Option Nat := none
  transactionHash : Bytes := []
  transactionPosition : Nat := 0
deriving Repr, DecidableEq

/-! ## API (RPC-side) data model — rpc types file -/
/-- `RpcAction`. -/
structure RpcAction where
  callType : Option String := none
  fromAddr : Option Bytes := none
  toAddr : Option Bytes := none
  value : Option Nat := none
  gas : Nat := 0
  init : Bytes := []
  input : Bytes := []
  address : Option Bytes := none
  refundAddress : Option Bytes := none
  balance : Option Nat := none
deriving Repr, DecidableEq

/-- `RpcActionResult`. -/
structure RpcActionResult where
  gasUsed : Nat := 0
  output : Option Bytes := none
  code : Option Bytes := none
  address : Option Bytes := none
deriving Repr, DecidableEq

/-- `RpcActionTrace`. -/
structure RpcActionTrace where
  action : RpcAction
  blockHash : Bytes := []
  blockNumber : Option Nat := none
  result : Option RpcActionResult := none
  error : String := ""
  subtraces : Nat := 0
  traceAddress : List Nat := []
  transactionHash : Bytes := []
  transactionPosition : Nat := 0
  traceType : String := ""
deriving Repr, DecidableEq

/-! ## Conversion to the API form — `ToRpcTraces` and its helpers -/
/-- `toRpcTraceCreate`: returns `none` where the Go code would dereference a
nil `Result` pointer (create trace with empty error and absent result). -/
def toRpcTraceCreate (interTrace : InternalActionTrace) (rpcTrace : RpcActionTrace) :
    Option RpcActionTrace :=
  let rpcTrace :=
    { rpcTrace with action := { rpcTrace.action with fromAddr := interTrace.action.fromAddr } }
  if interTrace.error ≠ "" then
    some { rpcTrace with error := interTrace.error }
  else
    match interTrace.result with
    | none => none
    | some r =>
      some { rpcTrace with
              result := some { gasUsed := r.gasUsed, code := some r.code, address := r.address } }

/-- `toRpcTraceCall`: like the create case but fills `callType` and `output`. -/
def toRpcTraceCall (interTrace : InternalActionTrace) (rpcTrace : RpcActionTrace) :
    Option RpcActionTrace :=
  let ct : String :=
    if interTrace.action.callType = CallTypeCall then Call
    else if interTrace.action.callType = CallTypeCallCode then CallCode
    else if interTrace.action.callType = CallTypeDelegateCall then DelegateCall
    else if interTrace.action.callType = CallTypeStaticCall then StaticCall
    else Call
  let rpcTrace :=
    { rpcTrace with
        action := { rpcTrace.action with
                      callType := some ct
                      fromAddr := interTrace.action.fromAddr
                      toAddr := interTrace.action.toAddr } }
  if interTrace.error ≠ "" then
    some { rpcTrace with error := interTrace.error }
  else
    match interTrace.result with
    | none => none
    | some r =>
      some { rpcTrace with
              result := some { gasUsed := r.gasUsed, output := some r.output } }

/-- `toRpcTraceSuicide`: copies address/refundAddress/balance, clears `value`,
and — notably — never touches `Error` or `Result` of the rpc record. -/
def toRpcTraceSuicide (interTrace : InternalActionTrace) (rpcTrace : RpcActionTrace) :
    RpcActionTrace :=
  { rpcTrace with
      action := { rpcTrace.action with
                    address := interTrace.action.address
                    refundAddress := interTrace.action.refundAddress
                    value := none
                    balance := some (match interTrace.action.balance with
                                     | none => 0
                                     | some b => b) } }

/-- Loop body of `ToRpcTraces` for a single internal trace. -/
def toRpcTraceOne (it : InternalActionTraces) (interTrace : InternalActionTrace) :
    Option RpcActionTrace :=
  let value : Nat := match interTrace.action.value with
                     | none => 0
                     | some v => v
  let rpcTrace : RpcActionTrace :=
    { action := { gas := interTrace.action.gas, value := some value,
                  input := interTrace.action.input, init := interTrace.action.init },
      blockHash := it.blockHash, blockNumber := it.blockNumber,
      subtraces := interTrace.subtraces, traceAddress := interTrace.traceAddress,
      transactionHash := it.transactionHash,
      transactionPosition := it.transactionPosition, traceType := "" }
  if interTrace.action.callType = CallTypeCreate then
    toRpcTraceCreate interTrace { rpcTrace with traceType := "create" }
  else if interTrace.action.callType = CallTypeSuicide then
    some (toRpcTraceSuicide interTrace { rpcTrace with traceType := "suicide" })
  else
    toRpcTraceCall interTrace { rpcTrace with traceType := "call" }

/-- `ToRpcTraces` from internal_types.go; `none` models the Go panic on a
malformed (open) create/call trace with neither error nor result. -/
def ToRpcTraces (it : InternalActionTraces) : Option (List RpcActionTrace) :=
  it.traces.mapM (toRpcTraceOne it)

/-! ## Streaming strategy — the `OeTracer` state machine (txtracev2) -/
/-- Minimal big-endian byte expansion of a natural number (`beBytes 0 = []`).
Shared by the address conversion below and the RLP layer. -/
def beBytes (n : Nat) : List Nat :=
  if h : n = 0 then [] else beBytes (n / 256) ++ [n % 256]
decreasing_by exact Nat.div_lt_self (Nat.pos_of_ne_zero h) (by omega)

/-- `common.Address(x.Bytes20())`: low 20 bytes of a stack word, big-endian. -/
def bytes20 (n : Nat) : Bytes :=
  let b := beBytes (n % 2 ^ 160)
  List.replicate (20 - b.length) 0 ++ b

def zeroAddress : Bytes := List.replicate 20 0

def zeroHash : Bytes := List.replicate 32 0

/-- `crypto.Keccak256Hash(nil)` — a fixed 32-byte constant in the source. -/
def emptyCodeHash : Bytes :=
  [0xc5, 0xd2, 0x46, 0x01, 0x86, 0xf7, 0x23, 0x3c, 0x92, 0x7e, 0x7d, 0xb2,
   0xdc, 0xc7, 0x03, 0xc0, 0xe5, 0x00, 0xb6, 0x53, 0xca, 0x82, 0x27, 0x3b,
   0x7b, 0xfa, 0xd8, 0x04, 0x5d, 0x85, 0xa4, 0x70]

/-- Error strings of the go-ethereum vm errors used by the pre-checks. -/
def ErrDepth : String := "max call depth exceeded"

def ErrInsufficientBalance : String := "insufficient balance for transfer"

def ErrNonceUintOverflow : String := "nonce uint64 overflow"

def ErrContractAddressCollision : String := "contract address collision"

/-- The three engine predicates the tracer queries through `ot.env`
(`CanTransfer`, `StateDB.GetNonce`, `StateDB.GetCodeHash`). -/
structure Env where
  canTransfer : Bytes → Nat → Bool := fun _ _ => true
  getNonce : Bytes → Nat := fun _ => 0
  getCodeHash : Bytes → Bytes := fun _ => []

/-- `vm.ScopeContext` as far as the tracer reads it: the operand stack (top is
the LAST element, as in geth), the working memory, and `Contract.Address()`. -/
structure Scope where
  stackData : List Nat := []
  memData : Bytes := []
  contractAddress : Bytes := []
deriving Repr, DecidableEq

/-- `scope.Stack.Back(n)`: n-th element from the top of the operand stack.
Out-of-range access returns 0 here (geth would panic; never reached). -/
def stackBack (s : Scope) (n : Nat) : Nat :=
  s.stackData.getD (s.stackData.length - 1 - n) 0

/-- `scope.Memory.GetCopy(offset, size)`: a copy of `size` bytes of memory at
`offset`, zero-padded like the Go `make`+`copy` pair. -/
def memGetCopy (mem : Bytes) (offset size : Nat) : Bytes :=
  if size = 0 then []
  else
    let avail := (mem.drop offset).take size
    avail ++ List.replicate (size - avail.length) 0

/-- The opcodes the tracer dispatches on; `OTHER` stands for every opcode the
source ignores. -/
inductive VmOp where
  | CREATE | CREATE2 | CALL | CALLCODE | DELEGATECALL | STATICCALL
  | SELFDESTRUCT | REVERT | OTHER
deriving Repr, DecidableEq

/-- State of the streaming `OeTracer`.  The Go struct keeps Go pointers that
are shared between `traceStack` and `outPutTraces`; here `outPutTraces` owns
the nodes and `traceStack` holds indices into it.  The head of `traceStack`
is the innermost open node (the Go slice keeps it at the end). -/
structure OeTracerState where
  outPutTraces : List InternalActionTrace := []
  traceStack : List Nat := []
  env : Env := {}

/-- The allocation/push block that `createEnter`, `callEnter` and
`suicideEnter` each contain verbatim (copy the parent's trace address, append
the parent's `Subtraces` counter, increment it, append the node to the output
list, push it onto the stack). -/
def allocPush (st : OeTracerState) (internalTrace : InternalActionTrace) : OeTracerState :=
  match st.traceStack.head? with
  | none =>
    { st with outPutTraces := st.outPutTraces ++ [internalTrace],
              traceStack := st.outPutTraces.length :: st.traceStack }
  | some parentIdx =>
    match st.outPutTraces[parentIdx]? with
    | none =>
      -- unreachable: stack indices always point into outPutTraces
      { st with outPutTraces := st.outPutTraces ++ [internalTrace],
                traceStack := st.outPutTraces.length :: st.traceStack }
    | some parent =>
      let internalTrace := { internalTrace with
        traceAddress := parent.traceAddress ++ [parent.subtraces] }
      let outPut := st.outPutTraces.set parentIdx { parent with subtraces := parent.subtraces + 1 }
      { st with outPutTraces := outPut ++ [internalTrace],
                traceStack := outPut.length :: st.traceStack }

/-- `createEnter`: handles CREATE/CREATE2 op start. -/
def createEnter (fromAddr address : Bytes) (input : Bytes) (gas : Nat) (value : Option Nat)
    (st : OeTracerState) : OeTracerState :=
  allocPush st
    { action := { callType := CallTypeCreate, fromAddr := some fromAddr, toAddr := none,
                  value := value, gas := gas, init := input, address := some address },
      traceAddress := [] }

/-- `callEnter`: handles CALL/CALLCODE/DELEGATECALL/STATICCALL op start. -/
def callEnter (callType : Nat) (fromAddr toAddr : Bytes) (input : Bytes) (gas : Nat)
    (value : Option Nat) (st : OeTracerState) : OeTracerState :=
  allocPush st
    { action := { callType := callType, fromAddr := some fromAddr, toAddr := some toAddr,
                  value := value, gas := gas, input := input },
      traceAddress := [] }

/-- `suicideEnter`: handles SELFDESTRUCT op start (input and gas ignored). -/
def suicideEnter (address refundAddress : Bytes) (_input : Bytes) (_gas : Nat)
    (balance : Option Nat) (st : OeTracerState) : OeTracerState :=
  allocPush st
    { action := { callType := CallTypeSuicide, address := some address,
                  refundAddress := some refundAddress, balance := balance },
      traceAddress := [] }

/-- `createExit`: CREATE/CREATE2 op exit. -/
def createExit (internalTrace : InternalActionTrace) (output : Bytes) (gasUsed : Nat)
    (err : Option String) : InternalActionTrace :=
  if internalTrace.error ≠ "" then
    { internalTrace with result := none }
  else
    match err with
    | some e => { internalTrace with error := e, result := none }
    | none =>
      { internalTrace with
          result := some { gasUsed := gasUsed, address := internalTrace.action.address,
                           code := output } }

/-- `callExit`: CALL/CALLCODE/DELEGATECALL/STATICCALL op exit. -/
def callExit (internalTrace : InternalActionTrace) (output : Bytes) (gasUsed : Nat)
    (err : Option String) : InternalActionTrace :=
  if internalTrace.error ≠ "" then
    { internalTrace with result := none }
  else
    match err with
    | some e => { internalTrace with error := e, result := none }
    | none =>
      { internalTrace with result := some { gasUsed := gasUsed, output := output } }

/-- `suicideExit`: SELFDESTRUCT op exit — on success it sets nothing. -/
def suicideExit (internalTrace : InternalActionTrace) (_output : Bytes) (_gasUsed : Nat)
    (err : Option String) : InternalActionTrace :=
  if internalTrace.error ≠ "" then
    { internalTrace with result := none }
  else
    match err with
    | some e => { internalTrace with error := e, result := none }
    | none => internalTrace

/-- `CaptureEnter`: dispatch of sub call/create/suicide start. -/
def CaptureEnter (typ : VmOp) (fromAddr toAddr : Bytes) (input : Bytes) (gas : Nat)
    (value : Option Nat) (st : OeTracerState) : OeTracerState :=
  match typ with
  | .CREATE | .CREATE2 => createEnter fromAddr toAddr input gas value st
  | .CALL => callEnter CallTypeCall fromAddr toAddr input gas value st
  | .CALLCODE => callEnter CallTypeCallCode fromAddr toAddr input gas value st
  | .DELEGATECALL => callEnter CallTypeDelegateCall fromAddr toAddr input gas value st
  | .STATICCALL => callEnter CallTypeStaticCall fromAddr toAddr input gas value st
  | .SELFDESTRUCT => suicideEnter fromAddr toAddr input gas value st
  | _ => st

/-- The `switch internalTrace.Action.CallType` dispatch inside `CaptureExit`;
a call type outside the six constants matches no case and leaves the node
unchanged (unreachable in practice). -/
def exitDispatch (internalTrace : InternalActionTrace) (output : Bytes) (gasUsed : Nat)
    (err : Option String) : InternalActionTrace :=
  if internalTrace.action.callType = CallTypeCreate then
    createExit internalTrace output gasUsed err
  else if internalTrace.action.callType = CallTypeSuicide then
    suicideExit internalTrace output gasUsed err
  else if internalTrace.action.callType = CallTypeCall ∨
          internalTrace.action.callType = CallTypeCallCode ∨
          internalTrace.action.callType = CallTypeDelegateCall ∨
          internalTrace.action.callType = CallTypeStaticCall then
    callExit internalTrace output gasUsed err
  else internalTrace

/-- `CaptureExit`: pops the innermost open node and finalizes it; `none`
models the Go panic when the stack is empty. -/
def CaptureExit (output : Bytes) (gasUsed : Nat) (err : Option String)
    (st : OeTracerState) : Option OeTracerState :=
  match st.traceStack.head? with
  | none => none
  | some i =>
    match st.outPutTraces[i]? with
    | none => none
    | some internalTrace =>
      some { st with traceStack := st.traceStack.tail,
                     outPutTraces :=
                       st.outPutTraces.set i (exitDispatch internalTrace output gasUsed err) }

/-- `CaptureStart`: top-level call/create start; also stores `env`. -/
def CaptureStart (env : Env) (fromAddr toAddr : Bytes) (create : Bool) (input : Bytes)
    (gas : Nat) (value : Option Nat) (st : OeTracerState) : OeTracerState :=
  let st :=
    if create then createEnter fromAddr toAddr input gas value st
    else callEnter CallTypeCall fromAddr toAddr input gas value st
  { st with env := env }

/-- `CaptureEnd`: top-level call/create end (binary dispatch in the source). -/
def CaptureEnd (output : Bytes) (gasUsed : Nat) (err : Option String)
    (st : OeTracerState) : Option OeTracerState :=
  match st.traceStack.head? with
  | none => none
  | some i =>
    match st.outPutTraces[i]? with
    | none => none
    | some internalTrace =>
      some { st with traceStack := st.traceStack.tail,
                     outPutTraces :=
                       st.outPutTraces.set i
                         (if internalTrace.action.callType = CallTypeCreate then
                            createExit internalTrace output gasUsed err
                          else callExit internalTrace output gasUsed err) }

/-- `checkDepthAboveLitmit` (name kept from the source, typo included). -/
def checkDepthAboveLitmit (depth : Nat) : Option String :=
  if depth > 1024 then some ErrDepth else none

/-- `checkCanTransfer`. -/
def checkCanTransfer (env : Env) (addr : Bytes) (value : Nat) : Option String :=
  if value ≠ 0 ∧ ¬ env.canTransfer addr value then some ErrInsufficientBalance else none

/-- `checkNonceMatch`: the Go overflow test `nonce+1 < nonce` on uint64. -/
def checkNonceMatch (env : Env) (addr : Bytes) : Option String :=
  let nonce := env.getNonce addr
  if (nonce + 1) % 2 ^ 64 < nonce then some ErrNonceUintOverflow else none

/-- `checkContractNotExist`. -/
def checkContractNotExist (env : Env) (addr : Bytes) : Option String :=
  let contractHash := env.getCodeHash addr
  if env.getNonce addr ≠ 0 ∨ (contractHash ≠ zeroHash ∧ contractHash ≠ emptyCodeHash) then
    some ErrContractAddressCollision
  else none

/-- `createPreProcessFailed`: synthesize one enter/exit pair for an aborted
CREATE/CREATE2. -/
def createPreProcessFailed (op : VmOp) (scope : Scope) (gas : Nat) (value : Option Nat)
    (err : String) (st : OeTracerState) : Option OeTracerState :=
  let offset := stackBack scope 1
  let size := stackBack scope 2
  let input := memGetCopy scope.memData offset size
  let st := CaptureEnter op scope.contractAddress zeroAddress input gas value st
  CaptureExit [] 0 (some err) st

/-- `callPreProcessFailed`: synthesize one enter/exit pair for an aborted
CALL-family opcode. -/
def callPreProcessFailed (op : VmOp) (scope : Scope) (gas : Nat) (value : Option Nat)
    (err : String) (st : OeTracerState) : Option OeTracerState :=
  let addr := stackBack scope 1
  let input :=
    if op = .CALL ∨ op = .CALLCODE then
      memGetCopy scope.memData (stackBack scope 3) (stackBack scope 4)
    else
      memGetCopy scope.memData (stackBack scope 2) (stackBack scope 3)
  let st := CaptureEnter op scope.contractAddress (bytes20 addr) input gas value st
  CaptureExit [] 0 (some err) st

/-- `CaptureState`: pre-processing checks for call-like opcodes plus the
REVERT marker.  Note the CALL/CALLCODE branch: the source assigns
`err = ot.checkDepthAboveLitmit(depth)` BEFORE testing the incoming engine
error, so the later `if err != nil` test reads the reassigned (nil) value and
is dead code; the dead test is kept here as a match on `none`. -/
def CaptureState (_pc : Nat) (op : VmOp) (gas _cost : Nat) (scope : Scope) (_rData : Bytes)
    (depth : Nat) (err : Option String) (st : OeTracerState) : Option OeTracerState :=
  match op with
  | .CREATE | .CREATE2 =>
    let value := stackBack scope 0
    let bigVal := if value = 0 then 0 else value
    match err with
    | some e => createPreProcessFailed op scope gas (some bigVal) e st
    | none =>
      match checkDepthAboveLitmit depth with
      | some e => createPreProcessFailed op scope gas (some bigVal) e st
      | none =>
        match checkCanTransfer st.env scope.contractAddress bigVal with
        | some e => createPreProcessFailed op scope gas (some bigVal) e st
        | none =>
          match checkNonceMatch st.env scope.contractAddress with
          | some e => createPreProcessFailed op scope gas (some bigVal) e st
          | none =>
            match checkContractNotExist st.env scope.contractAddress with
            | some e => createPreProcessFailed op scope gas (some bigVal) e st
            | none => some st
  | .CALL | .CALLCODE =>
    let value := stackBack scope 2
    let bigVal := if value = 0 then 0 else value
    match checkDepthAboveLitmit depth with
    | some e => callPreProcessFailed op scope gas (some bigVal) e st
    | none =>
      -- `err` was overwritten by the depth check just above
      match (none : Option String) with
      | some e => callPreProcessFailed op scope gas (some bigVal) e st
      | none =>
        match checkCanTransfer st.env scope.contractAddress bigVal with
        | some e => callPreProcessFailed op scope gas (some bigVal) e st
        | none => some st
  | .DELEGATECALL | .STATICCALL =>
    match err with
    | some e => callPreProcessFailed op scope gas none e st
    | none =>
      match checkDepthAboveLitmit depth with
      | some e => callPreProcessFailed op scope gas none e st
      | none => some st
  | .REVERT =>
    match st.traceStack.head? with
    | none => none
    | some i =>
      match st.outPutTraces[i]? with
      | none => none
      | some node =>
        some { st with
                 outPutTraces := st.outPutTraces.set i { node with error := "execution reverted" } }
  | _ => some st

/-- One observed engine event, i.e. one callback into the tracer. -/
inductive TraceEvent where
  | start (env : Env) (fromAddr toAddr : Bytes) (create : Bool) (input : Bytes)
      (gas : Nat) (value : Option Nat)
  | enter (typ : VmOp) (fromAddr toAddr : Bytes) (input : Bytes) (gas : Nat)
      (value : Option Nat)
  | exitSub (output : Bytes) (gasUsed : Nat) (err : Option String)
  | exitEnd (output : Bytes) (gasUsed : Nat) (err : Option String)
  | opState (pc : Nat) (op : VmOp) (gas cost : Nat) (scope : Scope) (rData : Bytes)
      (depth : Nat) (err : Option String)

/-- Dispatch of one event to the corresponding capture method. -/
def step (ev : TraceEvent) (st : OeTracerState) : Option OeTracerState :=
  match ev with
  | .start env f t create input gas value => some (CaptureStart env f t create input gas value st)
  | .enter typ f t input gas value => some (CaptureEnter typ f t input gas value st)
  | .exitSub output gasUsed err => CaptureExit output gasUsed err st
  | .exitEnd output gasUsed err => CaptureEnd output gasUsed err st
  | .opState pc op gas cost scope rData depth err =>
    CaptureState pc op gas cost scope rData depth err st

/-- Fold a whole event stream through the tracer. -/
def processEvents : List TraceEvent → OeTracerState → Option OeTracerState
  | [], st => some st
  | ev :: evs, st => (step ev st).bind (processEvents evs)

/-- The state `NewOeTracer` returns. -/
def initialState : OeTracerState := {}

/-! ## Basic lemmas about the streaming tracer -/
/-- The opcodes for which `CaptureEnter` creates a node. -/
def enterOp (typ : VmOp) : Bool :=
  match typ with
  | .CREATE | .CREATE2 | .CALL | .CALLCODE | .DELEGATECALL | .STATICCALL
  | .SELFDESTRUCT => true
  | _ => false

/-! ## C6 — preflight synthesizer emits one failed sub-call node -/
/-- Projection of a trace node without its `subtraces` counter. -/
def nodeView (n : InternalActionTrace) :
    InternalAction × Option InternalTraceActionResult × String × List Nat :=
  (n.action, n.result, n.error, n.traceAddress)

/-! ## C2 — stack balance and append-at-enter -/
/-- Events that push a node (a start or a sub-enter). -/
def isEnterEvent : TraceEvent → Bool
  | .start _ _ _ _ _ _ _ => true
  | .enter _ _ _ _ _ _ => true
  | _ => false

/-- Events that pop a node (a sub-exit or the top-level end). -/
def isExitEvent : TraceEvent → Bool
  | .exitSub _ _ _ => true
  | .exitEnd _ _ _ => true
  | _ => false

def entersCount : List TraceEvent → Nat
  | [] => 0
  | ev :: evs => (if isEnterEvent ev then 1 else 0) + entersCount evs

def exitsCount : List TraceEvent → Nat
  | [] => 0
  | ev :: evs => (if isExitEvent ev then 1 else 0) + exitsCount evs

/-- The start/enter/exit events of C2's statement (no opcode observations),
with every enter carrying a node-creating opcode. -/
def isBuildEvent : TraceEvent → Bool
  | .start _ _ _ _ _ _ _ => true
  | .enter typ _ _ _ _ _ => enterOp typ
  | .exitSub _ _ _ => true
  | .exitEnd _ _ _ => true
  | .opState _ _ _ _ _ _ _ _ => false

/-- Valid nesting: running the stack depth from `d`, no exit ever meets an
empty stack. -/
def prefixBalanced : Nat → List TraceEvent → Bool
  | _, [] => true
  | d, ev :: evs =>
    if isExitEvent ev then decide (0 < d) && prefixBalanced (d - 1) evs
    else if isEnterEvent ev then prefixBalanced (d + 1) evs
    else prefixBalanced d evs

/-! ## C3 — result/error state of closed nodes -/
/-- What actually holds for a closed node: a SELFDESTRUCT node never carries
a result; any other closed node carries exactly one of result/error. -/
def closedOk (n : InternalActionTrace) : Prop :=
  (n.action.callType = CallTypeSuicide → n.result = none) ∧
  (n.action.callType ≠ CallTypeSuicide → (n.result.isSome ↔ n.error = ""))

/-- The enter/exit pairing contract of the driving engine (§7 of the spec):
`start` only with nothing open, `enter`/opcode events only during execution,
`CaptureExit` only for nested nodes, `CaptureEnd` exactly for the root. -/
def drivingOk : Nat → List TraceEvent → Bool
  | _, [] => true
  | d, .start _ _ _ _ _ _ _ :: evs => decide (d = 0) && drivingOk 1 evs
  | d, .enter typ _ _ _ _ _ :: evs => enterOp typ && decide (0 < d) && drivingOk (d + 1) evs
  | d, .exitSub _ _ _ :: evs => decide (1 < d) && drivingOk (d - 1) evs
  | d, .exitEnd _ _ _ :: evs => decide (d = 1) && drivingOk 0 evs
  | d, .opState _ _ _ _ _ _ _ _ :: evs => decide (0 < d) && drivingOk d evs

/-- Non-nil Go errors carry non-empty messages. -/
def noEmptyErr : TraceEvent → Bool
  | .exitSub _ _ (some e) => decide (e ≠ "")
  | .exitEnd _ _ (some e) => decide (e ≠ "")
  | .opState _ _ _ _ _ _ _ (some e) => decide (e ≠ "")
  | _ => true

/-- The reachable-state invariant of the streaming tracer. -/
structure StateInv (st : OeTracerState) : Prop where
  bound : ∀ i ∈ st.traceStack, i < st.outPutTraces.length
  nodup : st.traceStack.Nodup
  openRes : ∀ i ∈ st.traceStack,
    (st.outPutTraces[i]?).map InternalActionTrace.result = some none
  ctLt : ∀ (j : Nat) (n : InternalActionTrace), st.outPutTraces[j]? = some n →
    n.action.callType < 6
  closed : ∀ (j : Nat) (n : InternalActionTrace), st.outPutTraces[j]? = some n →
    j ∉ st.traceStack → closedOk n
  root : ∀ i, st.traceStack.getLast? = some i →
    ∃ n, st.outPutTraces[i]? = some n ∧ n.action.callType ≠ CallTypeSuicide

/-! ## RLP — the storage byte encoding used by `rlp.EncodeToBytes` /
`rlp.DecodeBytes` (go-ethereum), modelled at the byte level. -/
/-- An RLP item: a byte string or a list of items. -/
inductive RlpItem where
  | str : List Nat → RlpItem
  | list : List RlpItem → RlpItem

/-- Big-endian value of a byte string (`beBytes`'s inverse). -/
def beVal (l : List Nat) : Nat := l.foldl (fun a b => a * 256 + b) 0

mutual

/-- RLP serialization of an item. -/
def rlpSerialize : RlpItem → List Nat
  | .str s =>
    if s.length = 1 ∧ s.headI < 128 then s
    else if s.length ≤ 55 then (128 + s.length) :: s
    else (183 + (beBytes s.length).length) :: (beBytes s.length ++ s)
  | .list items =>
    let payload := rlpSerializeList items
    if payload.length ≤ 55 then (192 + payload.length) :: payload
    else (247 + (beBytes payload.length).length) :: (beBytes payload.length ++ payload)

/-- RLP serialization of a sequence of items (a list payload). -/
def rlpSerializeList : List RlpItem → List Nat
  | [] => []
  | i :: is => rlpSerialize i ++ rlpSerializeList is

end

/-- `some (l.take n, l.drop n)` when `l` has at least `n` elements. -/
def splitAt? (n : Nat) (l : List Nat) : Option (List Nat × List Nat) :=
  if n ≤ l.length then some (l.take n, l.drop n) else none

mutual

/-- Fuel-indexed RLP parser for one item, returning the remaining bytes. -/
def parseItem : Nat → List Nat → Option (RlpItem × List Nat)
  | 0, _ => none
  | _ + 1, [] => none
  | fuel + 1, b :: rest =>
    if b < 128 then some (.str [b], rest)
    else if b < 184 then
      match splitAt? (b - 128) rest with
      | none => none
      | some (s, r) => some (.str s, r)
    else if b < 192 then
      match splitAt? (b - 183) rest with
      | none => none
      | some (lenBytes, r) =>
        match splitAt? (beVal lenBytes) r with
        | none => none
        | some (s, r2) => some (.str s, r2)
    else if b < 248 then
      match splitAt? (b - 192) rest with
      | none => none
      | some (payload, r) =>
        match parseItems fuel payload with
        | none => none
        | some items => some (.list items, r)
    else
      match splitAt? (b - 247) rest with
      | none => none
      | some (lenBytes, r) =>
        match splitAt? (beVal lenBytes) r with
        | none => none
        | some (payload, r2) =>
          match parseItems fuel payload with
          | none => none
          | some items => some (.list items, r2)

/-- Fuel-indexed RLP parser for a whole list payload. -/
def parseItems : Nat → List Nat → Option (List RlpItem)
  | _, [] => some []
  | 0, _ :: _ => none
  | fuel + 1, l =>
    match parseItem fuel l with
    | none => none
    | some (it, r) =>
      match parseItems fuel r with
      | none => none
      | some items => some (it :: items)

end

mutual

/-- Fuel measure for the parser (number of item headers in a term). -/
def rlpSz : RlpItem → Nat
  | .str _ => 1
  | .list items => 1 + rlpSzList items

def rlpSzList : List RlpItem → Nat
  | [] => 0
  | i :: is => 1 + rlpSz i + rlpSzList is

end

mutual

/-- Every byte-string and every list payload fits in a 64-bit length, as the
go-ethereum encoder requires. -/
def rlpBounded : RlpItem → Bool
  | .str s => decide (s.length < 2 ^ 64)
  | .list items =>
    decide ((rlpSerializeList items).length < 2 ^ 64) && rlpBoundedList items

def rlpBoundedList : List RlpItem → Bool
  | [] => true
  | i :: is => rlpBounded i && rlpBoundedList is

end

/-- `rlp.DecodeBytes`: parse one item consuming the whole input. -/
def rlpDecodeBytes (raw : List Nat) : Option RlpItem :=
  match parseItem (2 * raw.length + 1) raw with
  | some (it, []) => some it
  | _ => none

/-! ## Struct-level RLP codec for the storage types (go-ethereum `rlp`
reflection rules applied to `InternalActionTraces` and its components) -/
/-- Encoding of an unsigned-integer field: minimal big-endian bytes
(zero becomes the empty string). -/
def encUint (n : Nat) : RlpItem := .str (beBytes n)

/-- Encoding of a byte-slice / byte-array field. -/
def encBytes (s : Bytes) : RlpItem := .str s

/-- Encoding of a `*common.Address` field tagged `rlp:"nil"`: a nil pointer
encodes as the empty string, a present address as its bytes. -/
def encOptAddr : Option Bytes → RlpItem
  | none => .str []
  | some a => .str a

/-- Encoding of a `*big.Int` field tagged `rlp:"nil"`: nil encodes as the
empty string; a present value as its minimal big-endian bytes.  A present
zero also yields the empty string, conflating `some 0` with `none` on the
wire — see `normValue`. -/
def encOptBig : Option Nat → RlpItem
  | none => .str []
  | some v => .str (beBytes v)

/-- Encoding of the untagged `*big.Int` field `BlockNumber`: a nil pointer
is encoded like the value zero. -/
def encBlockNumber : Option Nat → RlpItem
  | none => .str []
  | some v => .str (beBytes v)

/-- Encoding of a Go `string` field (its bytes). -/
def encGoString (s : String) : RlpItem := .str (s.toList.map Char.toNat)

/-- Encoding of `InternalTraceActionResult` (fields in declaration order). -/
def encResult (r : InternalTraceActionResult) : RlpItem :=
  .list [encUint r.gasUsed, encBytes r.output, encBytes r.code, encOptAddr r.address]

/-- Encoding of the `Result *InternalTraceActionResult` field tagged
`rlp:"nil"`: a nil pointer encodes as the empty list. -/
def encOptResult : Option InternalTraceActionResult → RlpItem
  | none => .list []
  | some r => encResult r

/-- Encoding of `InternalAction` (fields in declaration order). -/
def encAction (a : InternalAction) : RlpItem :=
  .list [encUint a.callType, encOptAddr a.fromAddr, encOptAddr a.toAddr,
         encOptBig a.value, encUint a.gas, encBytes a.init, encBytes a.input,
         encOptAddr a.address, encOptAddr a.refundAddress, encOptBig a.balance]

/-- Encoding of `InternalActionTrace` (fields in declaration order). -/
def encTrace (t : InternalActionTrace) : RlpItem :=
  .list [encAction t.action, encOptResult t.result, encGoString t.error,
         .list (t.traceAddress.map encUint), encUint t.subtraces]

/-- Encoding of `InternalActionTraces` (fields in declaration order). -/
def encTraces (it : InternalActionTraces) : RlpItem :=
  .list [.list (it.traces.map encTrace), encBytes it.blockHash,
         encBlockNumber it.blockNumber, encBytes it.transactionHash,
         encUint it.transactionPosition]

/-- `rlp.EncodeToBytes` applied to an `InternalActionTraces` value: the
storage form written to the trace database. -/
def toStorageForm (it : InternalActionTraces) : List Nat :=
  rlpSerialize (encTraces it)

/-- Decode an unsigned integer of at most `k` bytes (the decoder rejects
oversized encodings and non-minimal ones with a leading zero byte). -/
def decUint (k : Nat) : RlpItem → Option Nat
  | .str s => if s.length ≤ k ∧ (s = [] ∨ s.headI ≠ 0) then some (beVal s) else none
  | .list _ => none

/-- Decode a byte-slice field. -/
def decBytes : RlpItem → Option Bytes
  | .str s => some s
  | .list _ => none

/-- Decode a 32-byte `common.Hash`. -/
def decHash : RlpItem → Option Bytes
  | .str s => if s.length = 32 then some s else none
  | .list _ => none

/-- Decode an `rlp:"nil"` address pointer: the empty string is a nil
pointer, anything else must be exactly 20 bytes. -/
def decOptAddr : RlpItem → Option (Option Bytes)
  | .str [] => some none
  | .str s => if s.length = 20 then some (some s) else none
  | .list _ => none

/-- Decode an `rlp:"nil"` `*big.Int`: the empty string is a nil pointer;
a leading zero byte is rejected as non-canonical. -/
def decOptBig : RlpItem → Option (Option Nat)
  | .str [] => some none
  | .str s => if s.headI ≠ 0 then some (some (beVal s)) else none
  | .list _ => none

/-- Decode the untagged `*big.Int` field `BlockNumber`: the empty string
decodes to the value zero (a freshly allocated zero big.Int). -/
def decBlockNumber : RlpItem → Option (Option Nat)
  | .str [] => some (some 0)
  | .str s => if s.headI ≠ 0 then some (some (beVal s)) else none
  | .list _ => none

/-- Decode a Go `string` field. -/
def decGoString : RlpItem → Option String
  | .str s => some (String.mk (s.map Char.ofNat))
  | .list _ => none

/-- Decode `InternalTraceActionResult`. -/
def decResult : RlpItem → Option InternalTraceActionResult
  | .list [g, o, c, a] => do
    let g ← decUint 8 g
    let o ← decBytes o
    let c ← decBytes c
    let a ← decOptAddr a
    some ⟨g, o, c, a⟩
  | _ => none

/-- Decode the `rlp:"nil"` result pointer: the empty list is a nil pointer. -/
def decOptResult : RlpItem → Option (Option InternalTraceActionResult)
  | .list [] => some none
  | it => (decResult it).map some

/-- Decode `InternalAction`. -/
def decAction : RlpItem → Option InternalAction
  | .list [ct, f, t, v, g, ini, inp, ad, ra, b] => do
    let ct ← decUint 1 ct
    let f ← decOptAddr f
    let t ← decOptAddr t
    let v ← decOptBig v
    let g ← decUint 8 g
    let ini ← decBytes ini
    let inp ← decBytes inp
    let ad ← decOptAddr ad
    let ra ← decOptAddr ra
    let b ← decOptBig b
    some ⟨ct, f, t, v, g, ini, inp, ad, ra, b⟩
  | _ => none

/-- Decode `InternalActionTrace`. -/
def decTrace : RlpItem → Option InternalActionTrace
  | .list [a, r, e, ta, st] => do
    let a ← decAction a
    let r ← decOptResult r
    let e ← decGoString e
    let ta ← (match ta with
              | .list l => l.mapM (decUint 4)
              | .str _ => none)
    let st ← decUint 4 st
    some ⟨a, r, e, ta, st⟩
  | _ => none

/-- Decode the `Traces` field (a list of traces). -/
def decTraceList : RlpItem → Option (List InternalActionTrace)
  | .list l => l.mapM decTrace
  | .str _ => none

/-- Decode `InternalActionTraces`. -/
def decTraces : RlpItem → Option InternalActionTraces
  | .list [ts, bh, bn, th, tp] => do
    let ts ← decTraceList ts
    let bh ← decHash bh
    let bn ← decBlockNumber bn
    let th ← decHash th
    let tp ← decUint 8 tp
    some ⟨ts, bh, bn, th, tp⟩
  | _ => none

/-- `rlp.DecodeBytes(raw, new(InternalActionTraces))`. -/
def decodeStorage (raw : List Nat) : Option InternalActionTraces :=
  (rlpDecodeBytes raw).bind decTraces

/-- A minimal stored trace set (zero traces) used as a sample input. -/
def sampleTraceSet : InternalActionTraces :=
  { traces := [],
    blockHash := List.replicate 32 0,
    blockNumber := some 0,
    transactionHash := List.replicate 32 0,
    transactionPosition := 0 }

/-- The single conflation of the storage codec: a present zero `*big.Int`
under `rlp:"nil"` encodes as the empty string, which decodes back to nil. -/
def normValue : Option Nat → Option Nat
  | some 0 => none
  | v => v

/-- Normalization of an action under the storage round trip. -/
def normAction (a : InternalAction) : InternalAction :=
  { a with value := normValue a.value, balance := normValue a.balance }

/-- Normalization of a trace under the storage round trip. -/
def normTrace (t : InternalActionTrace) : InternalActionTrace :=
  { t with action := normAction t.action }

/-- Normalization of a trace set under the storage round trip. -/
def normTraces (it : InternalActionTraces) : InternalActionTraces :=
  { it with traces := it.traces.map normTrace }

/-- Address pointers in a well-formed trace set are 20 bytes long. -/
def wfOptAddr : Option Bytes → Bool
  | none => true
  | some a => a.length = 20

/-- Well-formedness of a stored result: the gas counter fits in a uint64
and the created-contract address, if present, is 20 bytes. -/
def wfResult : Option InternalTraceActionResult → Bool
  | none => true
  | some r => decide (r.gasUsed < 2 ^ 64) && wfOptAddr r.address

/-- Well-formedness of a stored action: numeric fields fit their Go types
and address pointers are 20 bytes. -/
def wfAction (a : InternalAction) : Bool :=
  decide (a.callType < 2 ^ 8) && wfOptAddr a.fromAddr && wfOptAddr a.toAddr &&
  decide (a.gas < 2 ^ 64) && wfOptAddr a.address && wfOptAddr a.refundAddress

/-- Well-formedness of a stored trace: component bounds plus the closed-node
guarantee of the builder (a non-suicide trace carries an error or a result,
so `ToRpcTraces` does not dereference a nil result). -/
def wfTrace (t : InternalActionTrace) : Bool :=
  wfAction t.action && wfResult t.result &&
  t.traceAddress.all (fun k => decide (k < 2 ^ 32)) &&
  decide (t.subtraces < 2 ^ 32) &&
  (if t.action.callType = CallTypeSuicide then true
   else decide (t.error ≠ "") || t.result.isSome)

/-- Well-formed trace set: hashes are 32 bytes, the block number is set,
the transaction position fits a uint64, every trace is well-formed and the
encoding stays within RLP 64-bit length headers. -/
def WellFormedTraces (it : InternalActionTraces) : Bool :=
  it.traces.all wfTrace && decide (it.blockHash.length = 32) &&
  it.blockNumber.isSome && decide (it.transactionHash.length = 32) &&
  decide (it.transactionPosition < 2 ^ 64) && rlpBounded (encTraces it)

/-! ## `ReadRpcTxTrace` (store read path) -/
/-- The not-found error message of `ReadRpcTxTrace` (interpolating the
transaction hash). -/
def notFoundMsg (txHash : Bytes) : String :=
  "trace result of tx \x7b" ++ toString txHash ++ "\x7d not found in tracedb"

/-- The decode-failure error message of `ReadRpcTxTrace`. -/
def decodeFailMsg : String := "failed to decode rlp traces"

/-- `ReadRpcTxTrace`: `readResult` is what `store.ReadTxTrace` returned
(`.error` for a store failure).  The outer `Option` models the Go panic
inside `ToRpcTraces` on a malformed trace; `none` never occurs on data the
writer produced. -/
def ReadRpcTxTrace (txHash : Bytes) (readResult : Except String (List Nat)) :
    Option (Except String (List RpcActionTrace)) :=
  match readResult with
  | .error e => some (.error e)
  | .ok raw =>
    if raw = [] then some (.error (notFoundMsg txHash))
    else
      match decodeStorage raw with
      | none => some (.error decodeFailMsg)
      | some interTxs => (ToRpcTraces interTxs).map .ok

/-! ## Tree strategy (txtrace v1): `ActionTrace` and `processTrace` -/
/-- The v1 trace-type string constants. -/
def CALL : String := "call"

/-- `CREATE` trace-type constant of the v1 tracer. -/
def CREATE : String := "create"

/-- `SELFDESTRUCT` trace-type constant of the v1 tracer. -/
def SELFDESTRUCT : String := "suicide"

/-- `TAction` of the v1 tracer (`Value` is a non-pointer `hexutil.Big`). -/
structure TAction where
  callType : Option String := none
  fromAddr : Option Bytes := none
  toAddr : Option Bytes := none
  value : Nat := 0
  gas : Nat := 0
  init : Bytes := []
  input : Bytes := []
  address : Option Bytes := none
  refundAddress : Option Bytes := none
  balance : Option Nat := none
deriving Repr, DecidableEq

/-- `TResult` of the v1 tracer. -/
structure TResult where
  gasUsed : Nat := 0
  output : Option Bytes := none
  code : Bytes := []
  address : Option Bytes := none
  retOffset : Nat := 0
  retSize : Nat := 0
deriving Repr, DecidableEq

/-- `ActionTrace` of the v1 tracer; `childTraces` makes it a tree. -/
inductive ActionTrace where
  | mk (childTraces : List ActionTrace)
       (subtraces : Nat)
       (traceAddress : List Nat)
       (traceType : String)
       (action : TAction)
       (result : Option TResult)
       (error : String)
       (blockHash : Bytes)
       (blockNumber : Nat)
       (transactionHash : Bytes)
       (transactionPosition : Nat) : ActionTrace
deriving Repr

/-- Field access: `childTraces`. -/
def ActionTrace.childTraces : ActionTrace → List ActionTrace
  | .mk kids _ _ _ _ _ _ _ _ _ _ => kids

/-- Field access: `Subtraces`. -/
def ActionTrace.subtraces : ActionTrace → Nat
  | .mk _ sub _ _ _ _ _ _ _ _ _ => sub

/-- Field access: `TraceType`. -/
def ActionTrace.traceType : ActionTrace → String
  | .mk _ _ _ tt _ _ _ _ _ _ _ => tt

/-- Field access: `Action`. -/
def ActionTrace.action : ActionTrace → TAction
  | .mk _ _ _ _ act _ _ _ _ _ _ => act

/-- Field access: `Result`. -/
def ActionTrace.result : ActionTrace → Option TResult
  | .mk _ _ _ _ _ res _ _ _ _ _ => res

/-- Field update: `Subtraces`. -/
def ActionTrace.setSubtraces : ActionTrace → Nat → ActionTrace
  | .mk kids _ ta tt act res err bh bn th tp, n =>
    .mk kids n ta tt act res err bh bn th tp

/-- Field update: `Action.Gas`. -/
def ActionTrace.setGas : ActionTrace → Nat → ActionTrace
  | .mk kids sub ta tt act res err bh bn th tp, g =>
    .mk kids sub ta tt { act with gas := g } res err bh bn th tp

/-- Field update: clear `Action.From`. -/
def ActionTrace.clearFrom : ActionTrace → ActionTrace
  | .mk kids sub ta tt act res err bh bn th tp =>
    .mk kids sub ta tt { act with fromAddr := none } res err bh bn th tp

/-- Field update: drop `Result`. -/
def ActionTrace.dropResult : ActionTrace → ActionTrace
  | .mk kids sub ta tt act _ err bh bn th tp =>
    .mk kids sub ta tt act none err bh bn th tp

/-- The two mutation blocks the `processTrace` loop applies to one child:
the gas adjustment when a result is present, then the SELFDESTRUCT
clearing. -/
def processChild (parentGas : Nat) : ActionTrace → ActionTrace
  | .mk kids sub ta tt act res err bh bn th tp =>
    let act1 := match res with
      | some r =>
        { act with gas := if parentGas > r.gasUsed then parentGas - r.gasUsed
                          else r.gasUsed }
      | none => act
    if tt = SELFDESTRUCT then
      .mk kids sub ta tt { act1 with gas := 0, fromAddr := none } none err bh bn th tp
    else
      .mk kids sub ta tt act1 res err bh bn th tp

/-- The `processTrace` loop: for each child, mutate it, append it to
`callTrace.Actions` (our output list), then recurse into the appended copy
(whose own `Subtraces` is set by the recursive call before its children
are appended). -/
def processChildren (parentGas : Nat) : List ActionTrace → List ActionTrace
  | [] => []
  | .mk kids sub ta tt act res err bh bn th tp :: rest =>
    let c := processChild parentGas (.mk kids sub ta tt act res err bh bn th tp)
    (c.setSubtraces kids.length :: processChildren c.action.gas kids) ++
      processChildren parentGas rest

/-- `processTrace` on a node already in the output: sets the node's own
`Subtraces`, then runs the child loop; the second component is the flat
list of descendants appended after the node. -/
def processTrace (trace : ActionTrace) : ActionTrace × List ActionTrace :=
  (trace.setSubtraces trace.childTraces.length,
   processChildren trace.action.gas trace.childTraces)

/-- Claim C8, spec side: the rendered form of one child per the claim text —
gas becomes `parent.gas − child.result.gasUsed` if that difference is
positive, else `child.result.gasUsed`; a SELFDESTRUCT child then has its
gas zeroed, its `from` cleared and its result dropped. -/
def specRenderChild (parentGas : Nat) (c : ActionTrace) : ActionTrace :=
  let c1 := match c.result with
    | some r =>
      c.setGas (if parentGas - r.gasUsed > 0 then parentGas - r.gasUsed else r.gasUsed)
    | none => c
  if c.traceType = "suicide" then ((c1.setGas 0).clearFrom).dropResult else c1

/-- Claim C8, spec side: the preorder flattened output — each child is
appended (in order) followed by the recursive processing of its own
children, the recursion using the child's rendered gas as the new parent
gas. -/
def flattenSpec (parentGas : Nat) : List ActionTrace → List ActionTrace
  | [] => []
  | .mk kids sub ta tt act res err bh bn th tp :: rest =>
    let c := specRenderChild parentGas (.mk kids sub ta tt act res err bh bn th tp)
    (c :: flattenSpec c.action.gas kids) ++ flattenSpec parentGas rest

/-- Forget the `Subtraces` counter (the claim text does not speak about
it; the code pass additionally sets it on every appended node). -/
def eraseSubtraces (t : ActionTrace) : ActionTrace := t.setSubtraces 0

/-! ## Theorems -/

theorem mapM_get?_of_mem {α β : Type} {f : α → Option β} :
    ∀ {l : List α} {l' : List β}, l.mapM f = some l' →
      ∀ (i : Nat) a, l[i]? = some a → ∃ b, f a = some b ∧ l'[i]? = some b := by
  intro l
  induction l with
  | nil => intro l' h i a ha; simp at ha
  | cons x xs ih =>
    intro l' h i a ha
    rw [List.mapM_cons] at h
    match hf : f x with
    | none => rw [hf] at h; simp at h
    | some b =>
      rw [hf] at h
      match hm : xs.mapM f with
      | none => rw [hm] at h; simp at h
      | some bs =>
        rw [hm] at h
        simp only [Option.pure_def, Option.bind_some, Option.bind_eq_bind,
          Option.some_bind] at h
        cases h
        match i with
        | 0 =>
          simp only [List.getElem?_cons_zero, Option.some.injEq] at ha
          exact ⟨b, ha ▸ hf, by simp⟩
        | i + 1 =>
          simp only [List.getElem?_cons_succ] at ha ⊢
          exact ih hm i a ha

/-- C10: a SELFDESTRUCT internal trace converts to an API record that copies
address/refundAddress/balance, clears `value`, and carries neither `error`
nor `result`, even when the internal `error` is non-empty. -/
theorem suicide_api_form (it : InternalActionTraces) (tr : InternalActionTrace)
    (hk : tr.action.callType = CallTypeSuicide) :
    ((toRpcTraceOne it tr).map (fun rpc =>
        (rpc.error, rpc.result, rpc.action.address, rpc.action.refundAddress,
         rpc.action.value, rpc.action.balance)) =
      some ("", none, tr.action.address, tr.action.refundAddress, none,
            some (match tr.action.balance with
                  | none => 0
                  | some b => b))) ∧
    (∀ l (i : Nat), ToRpcTraces it = some l → it.traces[i]? = some tr →
       ∃ rpc, l[i]? = some rpc ∧ rpc.error = "" ∧ rpc.result = none) := by
  have hone : (toRpcTraceOne it tr).map (fun rpc =>
      (rpc.error, rpc.result, rpc.action.address, rpc.action.refundAddress,
       rpc.action.value, rpc.action.balance)) =
      some ("", none, tr.action.address, tr.action.refundAddress, none,
            some (match tr.action.balance with
                  | none => 0
                  | some b => b)) := by
    simp [toRpcTraceOne, hk, CallTypeSuicide, CallTypeCreate, toRpcTraceSuicide]
  refine ⟨hone, ?_⟩
  intro l i hl hi
  obtain ⟨b, hb, hbi⟩ := mapM_get?_of_mem hl i tr hi
  rw [hb] at hone
  simp only [Option.map_some', Option.some.injEq, Prod.mk.injEq] at hone
  exact ⟨b, hbi, hone.1, hone.2.1⟩

/-- Witness for C10 at a concrete suicide trace carrying a non-empty error. -/
theorem suicide_api_form_witness :
    (toRpcTraceOne ({} : InternalActionTraces)
        { action := { callType := CallTypeSuicide, address := some [1, 2],
                      refundAddress := some [3], balance := some 7 },
          error := "boom" }).map (fun rpc =>
        (rpc.error, rpc.result, rpc.action.address, rpc.action.refundAddress,
         rpc.action.value, rpc.action.balance)) =
      some ("", none, some [1, 2], some [3], none, some 7) :=
  (suicide_api_form ({} : InternalActionTraces)
    { action := { callType := CallTypeSuicide, address := some [1, 2],
                  refundAddress := some [3], balance := some 7 },
      error := "boom" } rfl).1

theorem allocPush_empty (st : OeTracerState) (node : InternalActionTrace)
    (h : st.traceStack = []) :
    allocPush st node =
      { st with outPutTraces := st.outPutTraces ++ [node],
                traceStack := [st.outPutTraces.length] } := by
  simp [allocPush, h]

theorem allocPush_parent (st : OeTracerState) (node : InternalActionTrace) (i : Nat)
    (parent : InternalActionTrace) (hh : st.traceStack.head? = some i)
    (hp : st.outPutTraces[i]? = some parent) :
    allocPush st node =
      { st with
          outPutTraces :=
            st.outPutTraces.set i { parent with subtraces := parent.subtraces + 1 } ++
              [{ node with traceAddress := parent.traceAddress ++ [parent.subtraces] }],
          traceStack := st.outPutTraces.length :: st.traceStack } := by
  simp [allocPush, hh, hp]

theorem CaptureEnter_eq_allocPush (typ : VmOp) (f t inp : Bytes) (g : Nat) (v : Option Nat)
    (st : OeTracerState) (h : enterOp typ = true) :
    ∃ node, CaptureEnter typ f t inp g v st = allocPush st node ∧
      node.traceAddress = [] ∧ node.result = none ∧ node.error = "" ∧
      node.action.gas = (if typ = .SELFDESTRUCT then 0 else g) ∧
      node.action.callType < 6 ∧
      (node.action.callType = CallTypeSuicide ↔ typ = VmOp.SELFDESTRUCT) := by
  cases typ with
  | CREATE =>
    exact ⟨_, rfl, rfl, rfl, rfl, by simp, by norm_num [CallTypeCreate],
      by simp [CallTypeCreate, CallTypeSuicide]⟩
  | CREATE2 =>
    exact ⟨_, rfl, rfl, rfl, rfl, by simp, by norm_num [CallTypeCreate],
      by simp [CallTypeCreate, CallTypeSuicide]⟩
  | CALL =>
    exact ⟨_, rfl, rfl, rfl, rfl, by simp, by norm_num [CallTypeCall],
      by simp [CallTypeCall, CallTypeSuicide]⟩
  | CALLCODE =>
    exact ⟨_, rfl, rfl, rfl, rfl, by simp, by norm_num [CallTypeCallCode],
      by simp [CallTypeCallCode, CallTypeSuicide]⟩
  | DELEGATECALL =>
    exact ⟨_, rfl, rfl, rfl, rfl, by simp, by norm_num [CallTypeDelegateCall],
      by simp [CallTypeDelegateCall, CallTypeSuicide]⟩
  | STATICCALL =>
    exact ⟨_, rfl, rfl, rfl, rfl, by simp, by norm_num [CallTypeStaticCall],
      by simp [CallTypeStaticCall, CallTypeSuicide]⟩
  | SELFDESTRUCT =>
    exact ⟨_, rfl, rfl, rfl, rfl, by simp, by norm_num [CallTypeSuicide],
      by simp [CallTypeSuicide]⟩
  | REVERT => exact absurd h (by decide)
  | OTHER => exact absurd h (by decide)

theorem exitDispatch_traceAddress (node : InternalActionTrace) (o : Bytes) (g : Nat)
    (e : Option String) : (exitDispatch node o g e).traceAddress = node.traceAddress := by
  unfold exitDispatch createExit callExit suicideExit
  split
  · split
    · rfl
    · split <;> rfl
  · split
    · split
      · rfl
      · split <;> rfl
    · split
      · split
        · rfl
        · split <;> rfl
      · rfl

theorem exitDispatch_of_error (node : InternalActionTrace) (o : Bytes) (g : Nat)
    (e : Option String) (herr : node.error ≠ "") (h6 : node.action.callType < 6) :
    exitDispatch node o g e = { node with result := none } := by
  have : node.action.callType = 0 ∨ node.action.callType = 1 ∨ node.action.callType = 2 ∨
      node.action.callType = 3 ∨ node.action.callType = 4 ∨ node.action.callType = 5 := by
    omega
  rcases this with h | h | h | h | h | h <;>
    simp [exitDispatch, createExit, callExit, suicideExit, h, herr,
      CallTypeCreate, CallTypeCall, CallTypeCallCode, CallTypeDelegateCall,
      CallTypeStaticCall, CallTypeSuicide]

theorem CaptureExit_some (st : OeTracerState) (i : Nat) (node : InternalActionTrace)
    (o : Bytes) (g : Nat) (e : Option String) (hh : st.traceStack.head? = some i)
    (hp : st.outPutTraces[i]? = some node) :
    CaptureExit o g e st =
      some { st with traceStack := st.traceStack.tail,
                     outPutTraces := st.outPutTraces.set i (exitDispatch node o g e) } := by
  simp [CaptureExit, hh, hp]

/-- `allocPush` leaves the trace addresses of all existing output entries
unchanged (it only bumps the parent's `subtraces`). -/
theorem allocPush_traceAddress (st : OeTracerState) (node : InternalActionTrace) (j : Nat)
    (hj : j < st.outPutTraces.length) :
    ((allocPush st node).outPutTraces[j]?).map InternalActionTrace.traceAddress =
      (st.outPutTraces[j]?).map InternalActionTrace.traceAddress := by
  unfold allocPush
  cases hh : st.traceStack.head? with
  | none => simp [hh, List.getElem?_append_left hj]
  | some i =>
    cases hp : st.outPutTraces[i]? with
    | none => simp [hh, hp, List.getElem?_append_left hj]
    | some parent =>
      simp only [hh, hp]
      have hj2 : j <
          (st.outPutTraces.set i { parent with subtraces := parent.subtraces + 1 }).length := by
        simpa using hj
      rw [List.getElem?_append_left hj2]
      by_cases hij : i = j
      · subst hij
        have hi : i < st.outPutTraces.length := (List.getElem?_eq_some.mp hp).1
        rw [List.getElem?_set_self hi, hp]
        rfl
      · rw [List.getElem?_set_ne hij]

theorem CaptureEnter_traceAddress (typ : VmOp) (f t inp : Bytes) (g : Nat) (v : Option Nat)
    (st : OeTracerState) (j : Nat) (hj : j < st.outPutTraces.length) :
    ((CaptureEnter typ f t inp g v st).outPutTraces[j]?).map InternalActionTrace.traceAddress =
      (st.outPutTraces[j]?).map InternalActionTrace.traceAddress := by
  cases typ <;>
    simp only [CaptureEnter, createEnter, callEnter, suicideEnter] <;>
    first
      | exact allocPush_traceAddress st _ j hj
      | rfl

theorem CaptureEnter_length (typ : VmOp) (f t inp : Bytes) (g : Nat) (v : Option Nat)
    (st : OeTracerState) :
    st.outPutTraces.length ≤ (CaptureEnter typ f t inp g v st).outPutTraces.length := by
  have halloc : ∀ node, st.outPutTraces.length ≤ (allocPush st node).outPutTraces.length := by
    intro node
    unfold allocPush
    cases hh : st.traceStack.head? with
    | none => simp [hh]
    | some i => cases hp : st.outPutTraces[i]? with
      | none => simp [hh, hp]
      | some parent => simp [hh, hp]
  cases typ <;>
    simp only [CaptureEnter, createEnter, callEnter, suicideEnter] <;>
    first
      | exact halloc _
      | exact Nat.le_refl _

theorem CaptureExit_traceAddress (o : Bytes) (g : Nat) (e : Option String)
    (st st' : OeTracerState) (h : CaptureExit o g e st = some st') (j : Nat) :
    (st'.outPutTraces[j]?).map InternalActionTrace.traceAddress =
      (st.outPutTraces[j]?).map InternalActionTrace.traceAddress := by
  unfold CaptureExit at h
  cases hh : st.traceStack.head? with
  | none => simp [hh] at h
  | some i =>
    cases hp : st.outPutTraces[i]? with
    | none => simp [hh, hp] at h
    | some node =>
      simp only [hh, hp, Option.some.injEq] at h
      subst h
      by_cases hij : i = j
      · subst hij
        have hi : i < st.outPutTraces.length := (List.getElem?_eq_some.mp hp).1
        show ((st.outPutTraces.set i _)[i]?).map _ = _
        rw [List.getElem?_set_self hi, hp]
        simp [exitDispatch_traceAddress]
      · show ((st.outPutTraces.set i _)[j]?).map _ = _
        rw [List.getElem?_set_ne hij]

theorem CaptureEnd_traceAddress (o : Bytes) (g : Nat) (e : Option String)
    (st st' : OeTracerState) (h : CaptureEnd o g e st = some st') (j : Nat) :
    (st'.outPutTraces[j]?).map InternalActionTrace.traceAddress =
      (st.outPutTraces[j]?).map InternalActionTrace.traceAddress := by
  unfold CaptureEnd at h
  cases hh : st.traceStack.head? with
  | none => simp [hh] at h
  | some i =>
    cases hp : st.outPutTraces[i]? with
    | none => simp [hh, hp] at h
    | some node =>
      simp only [hh, hp, Option.some.injEq] at h
      subst h
      by_cases hij : i = j
      · subst hij
        have hi : i < st.outPutTraces.length := (List.getElem?_eq_some.mp hp).1
        show ((st.outPutTraces.set i _)[i]?).map _ = _
        rw [List.getElem?_set_self hi, hp]
        have hca : ∀ x : InternalActionTrace, (createExit x o g e).traceAddress =
            x.traceAddress := by
          intro x
          unfold createExit
          split
          · rfl
          · split <;> rfl
        have hcb : ∀ x : InternalActionTrace, (callExit x o g e).traceAddress =
            x.traceAddress := by
          intro x
          unfold callExit
          split
          · rfl
          · split <;> rfl
        by_cases hc : node.action.callType = CallTypeCreate <;> simp [hc, hca, hcb]
      · show ((st.outPutTraces.set i _)[j]?).map _ = _
        rw [List.getElem?_set_ne hij]

theorem createPreProcessFailed_traceAddress (op : VmOp) (scope : Scope) (gas : Nat)
    (v : Option Nat) (e : String) (st st' : OeTracerState)
    (h : createPreProcessFailed op scope gas v e st = some st') (j : Nat)
    (hj : j < st.outPutTraces.length) :
    (st'.outPutTraces[j]?).map InternalActionTrace.traceAddress =
      (st.outPutTraces[j]?).map InternalActionTrace.traceAddress := by
  unfold createPreProcessFailed at h
  have h1 := CaptureExit_traceAddress _ _ _ _ _ h j
  rw [h1]
  exact CaptureEnter_traceAddress _ _ _ _ _ _ _ j hj

theorem callPreProcessFailed_traceAddress (op : VmOp) (scope : Scope) (gas : Nat)
    (v : Option Nat) (e : String) (st st' : OeTracerState)
    (h : callPreProcessFailed op scope gas v e st = some st') (j : Nat)
    (hj : j < st.outPutTraces.length) :
    (st'.outPutTraces[j]?).map InternalActionTrace.traceAddress =
      (st.outPutTraces[j]?).map InternalActionTrace.traceAddress := by
  unfold callPreProcessFailed at h
  have h1 := CaptureExit_traceAddress _ _ _ _ _ h j
  rw [h1]
  exact CaptureEnter_traceAddress _ _ _ _ _ _ _ j hj

theorem CaptureState_traceAddress (pc : Nat) (op : VmOp) (gas cost : Nat) (scope : Scope)
    (rData : Bytes) (depth : Nat) (err : Option String) (st st' : OeTracerState)
    (h : CaptureState pc op gas cost scope rData depth err st = some st') (j : Nat)
    (hj : j < st.outPutTraces.length) :
    (st'.outPutTraces[j]?).map InternalActionTrace.traceAddress =
      (st.outPutTraces[j]?).map InternalActionTrace.traceAddress := by
  unfold CaptureState at h
  cases op <;> simp only at h
  case REVERT =>
    cases hh : st.traceStack.head? with
    | none => simp [hh] at h
    | some i =>
      cases hp : st.outPutTraces[i]? with
      | none => simp [hh, hp] at h
      | some node =>
        simp only [hh, hp, Option.some.injEq] at h
        subst h
        by_cases hij : i = j
        · subst hij
          have hi : i < st.outPutTraces.length := (List.getElem?_eq_some.mp hp).1
          show ((st.outPutTraces.set i _)[i]?).map _ = _
          rw [List.getElem?_set_self hi, hp]
          rfl
        · show ((st.outPutTraces.set i _)[j]?).map _ = _
          rw [List.getElem?_set_ne hij]
  all_goals
    repeat' split at h
  all_goals
    first
    | (cases h; rfl)
    | exact createPreProcessFailed_traceAddress _ _ _ _ _ _ _ h j hj
    | exact callPreProcessFailed_traceAddress _ _ _ _ _ _ _ h j hj

theorem step_preserves_traceAddress (ev : TraceEvent) (st st' : OeTracerState)
    (h : step ev st = some st') (j : Nat) (hj : j < st.outPutTraces.length) :
    (st'.outPutTraces[j]?).map InternalActionTrace.traceAddress =
      (st.outPutTraces[j]?).map InternalActionTrace.traceAddress := by
  cases ev with
  | start env f t create input gas value =>
    simp only [step, Option.some.injEq] at h
    subst h
    unfold CaptureStart
    split <;>
      simp only [createEnter, callEnter] <;>
      exact allocPush_traceAddress st _ j hj
  | enter typ f t input gas value =>
    simp only [step, Option.some.injEq] at h
    subst h
    exact CaptureEnter_traceAddress typ f t input gas value st j hj
  | exitSub output gasUsed err =>
    exact CaptureExit_traceAddress _ _ _ _ _ h j
  | exitEnd output gasUsed err =>
    exact CaptureEnd_traceAddress _ _ _ _ _ h j
  | opState pc op gas cost scope rData depth err =>
    exact CaptureState_traceAddress pc op gas cost scope rData depth err st st' h j hj

/-! ## C1 — trace-address allocation -/
/-- C1: in the streaming strategy, a node created by an enter event with a
non-empty open stack receives the parent's trace address with the parent's
`subtraces` counter appended, and the only side effect on existing nodes is
that counter's increment; with an empty stack the node receives the empty
address and the existing output is untouched; and no event ever changes the
trace address of an already-created node. -/
theorem trace_address_allocation :
    (∀ typ f t inp g v st, enterOp typ = true →
      (st.traceStack = [] →
        ∃ node, CaptureEnter typ f t inp g v st =
            { st with outPutTraces := st.outPutTraces ++ [node],
                      traceStack := [st.outPutTraces.length] } ∧
          node.traceAddress = []) ∧
      (∀ (i : Nat) parent, st.traceStack.head? = some i →
        st.outPutTraces[i]? = some parent →
        ∃ node, CaptureEnter typ f t inp g v st =
            { st with
                outPutTraces :=
                  st.outPutTraces.set i { parent with subtraces := parent.subtraces + 1 } ++
                    [node],
                traceStack := st.outPutTraces.length :: st.traceStack } ∧
          node.traceAddress = parent.traceAddress ++ [parent.subtraces])) ∧
    (∀ ev st st', step ev st = some st' → ∀ (j : Nat), j < st.outPutTraces.length →
      (st'.outPutTraces[j]?).map InternalActionTrace.traceAddress =
        (st.outPutTraces[j]?).map InternalActionTrace.traceAddress) := by
  constructor
  · intro typ f t inp g v st h
    obtain ⟨node, heq, haddr, -, -, -, -⟩ := CaptureEnter_eq_allocPush typ f t inp g v st h
    constructor
    · intro hemp
      exact ⟨node, by rw [heq, allocPush_empty st node hemp], haddr⟩
    · intro i parent hh hp
      refine ⟨{ node with traceAddress := parent.traceAddress ++ [parent.subtraces] },
        by rw [heq, allocPush_parent st node i parent hh hp], rfl⟩
  · exact fun ev st st' h j hj => step_preserves_traceAddress ev st st' h j hj

/-- Witness for C1: allocation under a concrete parent. -/
theorem trace_address_allocation_witness :
    ∃ node,
      CaptureEnter VmOp.CALL [1] [2] [] 7 none
          { outPutTraces := [{ action := { callType := CallTypeCall },
                               traceAddress := [4], subtraces := 2 }],
            traceStack := [0] } =
        { outPutTraces := [{ action := { callType := CallTypeCall },
                             traceAddress := [4], subtraces := 3 }, node],
          traceStack := [1, 0] } ∧
      node.traceAddress = [4, 2] := by
  obtain ⟨node, heq, haddr⟩ :=
    ((trace_address_allocation).1 VmOp.CALL [1] [2] [] 7 none
      { outPutTraces := [{ action := { callType := CallTypeCall },
                           traceAddress := [4], subtraces := 2 }],
        traceStack := [0] } rfl).2 0
      { action := { callType := CallTypeCall }, traceAddress := [4], subtraces := 2 }
      rfl rfl
  refine ⟨node, ?_, by simpa using haddr⟩
  rw [heq]
  rfl

/-! ## C4 — REVERT marks the innermost open node -/
theorem exitDispatch_of_err_some (node : InternalActionTrace) (o : Bytes) (g : Nat)
    (e : String) (herr : node.error = "") (h6 : node.action.callType < 6) :
    exitDispatch node o g (some e) = { node with error := e, result := none } := by
  have : node.action.callType = 0 ∨ node.action.callType = 1 ∨ node.action.callType = 2 ∨
      node.action.callType = 3 ∨ node.action.callType = 4 ∨ node.action.callType = 5 := by
    omega
  rcases this with h | h | h | h | h | h <;>
    simp [exitDispatch, createExit, callExit, suicideExit, h, herr,
      CallTypeCreate, CallTypeCall, CallTypeCallCode, CallTypeDelegateCall,
      CallTypeStaticCall, CallTypeSuicide]

/-- C4: a REVERT opcode observed while node `i` is innermost sets that node's
error to exactly "execution reverted" and touches no other node; when the
node is then closed by its exit, any result is discarded (`result = none`)
while the error stays, and every other node — in particular every
already-closed descendant — keeps its entry unchanged. -/
theorem revert_marks_innermost (st : OeTracerState) (i : Nat) (node : InternalActionTrace)
    (hh : st.traceStack.head? = some i) (hp : st.outPutTraces[i]? = some node)
    (h6 : node.action.callType < 6) (pc g c : Nat) (scope : Scope) (rData : Bytes)
    (depth : Nat) (err : Option String) :
    ∃ st1, CaptureState pc VmOp.REVERT g c scope rData depth err st = some st1 ∧
      st1.outPutTraces[i]? = some { node with error := "execution reverted" } ∧
      st1.traceStack = st.traceStack ∧
      (∀ (j : Nat), j ≠ i → st1.outPutTraces[j]? = st.outPutTraces[j]?) ∧
      ∀ o gu e2, ∃ st2, CaptureExit o gu e2 st1 = some st2 ∧
        st2.outPutTraces[i]? =
          some { node with error := "execution reverted", result := none } ∧
        st2.traceStack = st.traceStack.tail ∧
        (∀ (j : Nat), j ≠ i → st2.outPutTraces[j]? = st.outPutTraces[j]?) := by
  have hi : i < st.outPutTraces.length := (List.getElem?_eq_some.mp hp).1
  refine ⟨{ st with outPutTraces :=
      st.outPutTraces.set i { node with error := "execution reverted" } },
    by simp [CaptureState, hh, hp], ?_, rfl, ?_, ?_⟩
  · simpa using List.getElem?_set_self hi
  · intro j hj
    simpa using List.getElem?_set_ne (fun he => hj he.symm)
  · intro o gu e2
    set node1 : InternalActionTrace := { node with error := "execution reverted" } with hn1
    set out1 := st.outPutTraces.set i node1 with hout1
    have hh1 : (⟨out1, st.traceStack, st.env⟩ : OeTracerState).traceStack.head? = some i := hh
    have hp1 : (⟨out1, st.traceStack, st.env⟩ : OeTracerState).outPutTraces[i]? = some node1 := by
      simpa [hout1] using List.getElem?_set_self hi
    refine ⟨_, CaptureExit_some _ i node1 o gu e2 hh1 hp1, ?_, rfl, ?_⟩
    · have : exitDispatch node1 o gu e2 = { node1 with result := none } := by
        have herr1 : node1.error ≠ "" := by simp [hn1]
        have h61 : node1.action.callType < 6 := h6
        exact exitDispatch_of_error node1 o gu e2 herr1 h61
      have hi1 : i < out1.length := by simpa [hout1] using hi
      simp only [this]
      simpa using List.getElem?_set_self hi1
    · intro j hj
      have h1 : (out1.set i (exitDispatch node1 o gu e2))[j]? = out1[j]? :=
        List.getElem?_set_ne (fun he => hj he.symm)
      have h2 : out1[j]? = st.outPutTraces[j]? := by
        simpa [hout1] using List.getElem?_set_ne (fun he => hj he.symm)
      simpa using h1.trans h2

/-- Witness for C4 at a concrete one-node state. -/
theorem revert_marks_innermost_witness :
    ∃ st1, CaptureState 0 VmOp.REVERT 5 2 {} [] 1 none
        { outPutTraces := [{ action := { callType := CallTypeCall },
                             result := some { gasUsed := 9 } }],
          traceStack := [0] } = some st1 ∧
      st1.outPutTraces[0]? = some { action := { callType := CallTypeCall },
                                    result := some { gasUsed := 9 },
                                    error := "execution reverted" } ∧
      ∀ o gu e2, ∃ st2, CaptureExit o gu e2 st1 = some st2 ∧
        st2.outPutTraces[0]? = some { action := { callType := CallTypeCall },
                                      result := none,
                                      error := "execution reverted" } := by
  obtain ⟨st1, hrun, hset, -, -, hexit⟩ :=
    revert_marks_innermost
      { outPutTraces := [{ action := { callType := CallTypeCall },
                           result := some { gasUsed := 9 } }],
        traceStack := [0] } 0
      { action := { callType := CallTypeCall }, result := some { gasUsed := 9 } }
      rfl rfl (by norm_num [CallTypeCall]) 0 5 2 {} [] 1 none
  refine ⟨st1, hrun, hset, fun o gu e2 => ?_⟩
  obtain ⟨st2, hexit2, hnode, -, -⟩ := hexit o gu e2
  exact ⟨st2, hexit2, hnode⟩

theorem allocPush_length (st : OeTracerState) (node : InternalActionTrace) :
    (allocPush st node).outPutTraces.length = st.outPutTraces.length + 1 := by
  unfold allocPush
  cases hh : st.traceStack.head? with
  | none => simp [hh]
  | some i => cases hp : st.outPutTraces[i]? with
    | none => simp [hh, hp]
    | some parent => simp [hh, hp]

theorem allocPush_stack (st : OeTracerState) (node : InternalActionTrace) :
    (allocPush st node).traceStack = st.outPutTraces.length :: st.traceStack := by
  unfold allocPush
  cases hh : st.traceStack.head? with
  | none => cases hs : st.traceStack with
    | nil => simp [hh, hs]
    | cons a l => simp [hs] at hh
  | some i => cases hp : st.outPutTraces[i]? with
    | none => simp [hh, hp]
    | some parent => simp [hh, hp]

theorem allocPush_env (st : OeTracerState) (node : InternalActionTrace) :
    (allocPush st node).env = st.env := by
  unfold allocPush
  cases hh : st.traceStack.head? with
  | none => simp [hh]
  | some i => cases hp : st.outPutTraces[i]? with
    | none => simp [hh, hp]
    | some parent => simp [hh, hp]

theorem allocPush_last (st : OeTracerState) (node : InternalActionTrace) :
    ∃ ta, (allocPush st node).outPutTraces[st.outPutTraces.length]? =
      some { node with traceAddress := ta } := by
  unfold allocPush
  cases hh : st.traceStack.head? with
  | none =>
    exact ⟨node.traceAddress, by simp [hh, List.getElem?_concat_length]⟩
  | some i =>
    cases hp : st.outPutTraces[i]? with
    | none => exact ⟨node.traceAddress, by simp [hh, hp, List.getElem?_concat_length]⟩
    | some parent =>
      refine ⟨parent.traceAddress ++ [parent.subtraces], ?_⟩
      simp only [hh, hp]
      have : (st.outPutTraces.set i
          { parent with subtraces := parent.subtraces + 1 }).length =
          st.outPutTraces.length := by simp
      rw [show st.outPutTraces.length =
          (st.outPutTraces.set i { parent with subtraces := parent.subtraces + 1 }).length
        from this.symm]
      exact List.getElem?_concat_length _ _

theorem allocPush_view (st : OeTracerState) (node : InternalActionTrace) (j : Nat)
    (hj : j < st.outPutTraces.length) :
    ((allocPush st node).outPutTraces[j]?).map nodeView =
      (st.outPutTraces[j]?).map nodeView := by
  unfold allocPush
  cases hh : st.traceStack.head? with
  | none => simp [hh, List.getElem?_append_left hj]
  | some i =>
    cases hp : st.outPutTraces[i]? with
    | none => simp [hh, hp, List.getElem?_append_left hj]
    | some parent =>
      simp only [hh, hp]
      have hj2 : j <
          (st.outPutTraces.set i { parent with subtraces := parent.subtraces + 1 }).length := by
        simpa using hj
      rw [List.getElem?_append_left hj2]
      by_cases hij : i = j
      · subst hij
        have hi : i < st.outPutTraces.length := (List.getElem?_eq_some.mp hp).1
        rw [List.getElem?_set_self hi, hp]
        rfl
      · rw [List.getElem?_set_ne hij]

/-- Core of C6: a `CaptureEnter` immediately followed by a `CaptureExit`
carrying error `e` appends exactly one node, closed with that error, no
result, and the operands it was given; the stack and every existing node
(up to the parent's `subtraces` counter) are untouched. -/
theorem enter_exit_synthesizes (typ : VmOp) (f t inp : Bytes) (g : Nat) (v : Option Nat)
    (e : String) (st : OeTracerState) (h : enterOp typ = true)
    (hsd : typ ≠ VmOp.SELFDESTRUCT) :
    ∃ st' node, CaptureExit [] 0 (some e) (CaptureEnter typ f t inp g v st) = some st' ∧
      st'.traceStack = st.traceStack ∧
      st'.outPutTraces.length = st.outPutTraces.length + 1 ∧
      st'.outPutTraces[st.outPutTraces.length]? = some node ∧
      node.error = e ∧ node.result = none ∧ node.action.gas = g ∧
      (∀ (j : Nat), j < st.outPutTraces.length →
        (st'.outPutTraces[j]?).map nodeView = (st.outPutTraces[j]?).map nodeView) := by
  obtain ⟨node0, heq, -, hres0, herr0, hgas0, h6, -⟩ :=
    CaptureEnter_eq_allocPush typ f t inp g v st h
  rw [heq]
  obtain ⟨ta, hlast⟩ := allocPush_last st node0
  have hstk := allocPush_stack st node0
  have hlen := allocPush_length st node0
  set nodeX : InternalActionTrace := { node0 with traceAddress := ta } with hnX
  have hh1 : (allocPush st node0).traceStack.head? = some st.outPutTraces.length := by
    rw [hstk]; rfl
  have hdisp : exitDispatch nodeX [] 0 (some e) = { nodeX with error := e, result := none } :=
    exitDispatch_of_err_some nodeX [] 0 e herr0 h6
  refine ⟨_, { nodeX with error := e, result := none },
    CaptureExit_some _ _ nodeX [] 0 (some e) hh1 hlast, ?_, ?_, ?_, rfl, hres0 ▸ rfl,
    hgas0.trans (if_neg hsd), ?_⟩
  · simp [hstk]
  · simp [hlen]
  · have hlt : st.outPutTraces.length < (allocPush st node0).outPutTraces.length := by
      omega
    rw [hdisp]
    simpa using List.getElem?_set_self hlt
  · intro j hj
    have hne : st.outPutTraces.length ≠ j := by omega
    have h1 : ((allocPush st node0).outPutTraces.set st.outPutTraces.length
        (exitDispatch nodeX [] 0 (some e)))[j]? = (allocPush st node0).outPutTraces[j]? :=
      List.getElem?_set_ne hne
    calc (((allocPush st node0).outPutTraces.set st.outPutTraces.length
            (exitDispatch nodeX [] 0 (some e)))[j]?).map nodeView
        = ((allocPush st node0).outPutTraces[j]?).map nodeView := by rw [h1]
      _ = (st.outPutTraces[j]?).map nodeView := allocPush_view st node0 j hj

/-- C6: when a pre-check fails for a call-like or create opcode, the
synthesizer produces exactly one new trace node, closed with the failing
check's error and no result, leaving the open stack and every existing node
(up to the parent's child counter) unchanged — a zero-effect failed
sub-call with no real sub-execution. -/
theorem preflight_failed_subcall :
    (∀ op scope gas v e st, (op = VmOp.CREATE ∨ op = VmOp.CREATE2) →
      ∃ st' node, createPreProcessFailed op scope gas v e st = some st' ∧
        st'.traceStack = st.traceStack ∧
        st'.outPutTraces.length = st.outPutTraces.length + 1 ∧
        st'.outPutTraces[st.outPutTraces.length]? = some node ∧
        node.error = e ∧ node.result = none ∧ node.action.gas = gas ∧
        (∀ (j : Nat), j < st.outPutTraces.length →
          (st'.outPutTraces[j]?).map nodeView = (st.outPutTraces[j]?).map nodeView)) ∧
    (∀ op scope gas v e st,
      (op = VmOp.CALL ∨ op = VmOp.CALLCODE ∨ op = VmOp.DELEGATECALL ∨
        op = VmOp.STATICCALL) →
      ∃ st' node, callPreProcessFailed op scope gas v e st = some st' ∧
        st'.traceStack = st.traceStack ∧
        st'.outPutTraces.length = st.outPutTraces.length + 1 ∧
        st'.outPutTraces[st.outPutTraces.length]? = some node ∧
        node.error = e ∧ node.result = none ∧ node.action.gas = gas ∧
        (∀ (j : Nat), j < st.outPutTraces.length →
          (st'.outPutTraces[j]?).map nodeView = (st.outPutTraces[j]?).map nodeView)) := by
  constructor
  · intro op scope gas v e st hop
    unfold createPreProcessFailed
    rcases hop with rfl | rfl <;>
      exact enter_exit_synthesizes _ _ _ _ _ _ _ _ rfl (by decide)
  · intro op scope gas v e st hop
    unfold callPreProcessFailed
    rcases hop with rfl | rfl | rfl | rfl <;>
      exact enter_exit_synthesizes _ _ _ _ _ _ _ _ rfl (by decide)

/-- Witness for C6: a CREATE2 rejected by the depth pre-check. -/
theorem preflight_failed_subcall_witness :
    ∃ st' node,
      createPreProcessFailed VmOp.CREATE2 {} 100 (some 0) ErrDepth initialState =
        some st' ∧
      st'.traceStack = [] ∧ st'.outPutTraces.length = 1 ∧
      st'.outPutTraces[0]? = some node ∧
      node.error = ErrDepth ∧ node.result = none ∧ node.action.gas = 100 := by
  obtain ⟨st', node, hrun, hstk, hlen, hget, herr, hres, hgas, -⟩ :=
    (preflight_failed_subcall).1 VmOp.CREATE2 {} 100 (some 0) ErrDepth initialState
      (Or.inr rfl)
  exact ⟨st', node, hrun, hstk, hlen, hget, herr, hres, hgas⟩

/-! ## C5 — pre-check evaluation order (code bug in the CALL/CALLCODE branch) -/
/-- C5 (divergence demonstration): a CALL opcode observed with a non-nil
upstream engine error, depth within the limit and no value transfer leaves
the tracer state completely unchanged — no synthetic node carrying the
upstream error is produced, because the source overwrites `err` with the
depth-check result before testing it.  In the same situation with the depth
limit also exceeded, the synthesized node carries the depth error, not the
upstream one. -/
theorem call_precheck_order_bug :
    (CaptureState 0 VmOp.CALL 50 3
        { stackData := [9, 8, 0], memData := [], contractAddress := [1] } [] 5
        (some "upstream engine failure")
        { outPutTraces := [{ action := { callType := CallTypeCall } }],
          traceStack := [0] } =
      some { outPutTraces := [{ action := { callType := CallTypeCall } }],
             traceStack := [0] }) ∧
    (∃ st', CaptureState 0 VmOp.CALL 50 3
        { stackData := [9, 8, 0], memData := [], contractAddress := [1] } [] 1025
        (some "upstream engine failure")
        { outPutTraces := [{ action := { callType := CallTypeCall } }],
          traceStack := [0] } = some st' ∧
      st'.outPutTraces.map InternalActionTrace.error = ["", ErrDepth]) := by
  constructor
  · rfl
  · exact ⟨_, rfl, by decide⟩

theorem CaptureEnter_stack (typ : VmOp) (f t inp : Bytes) (g : Nat) (v : Option Nat)
    (st : OeTracerState) (h : enterOp typ = true) :
    (CaptureEnter typ f t inp g v st).traceStack =
        st.outPutTraces.length :: st.traceStack ∧
      (CaptureEnter typ f t inp g v st).outPutTraces.length =
        st.outPutTraces.length + 1 := by
  obtain ⟨node, heq, -⟩ := CaptureEnter_eq_allocPush typ f t inp g v st h
  rw [heq]
  exact ⟨allocPush_stack st node, allocPush_length st node⟩

theorem CaptureStart_stack (env : Env) (f t : Bytes) (c : Bool) (inp : Bytes) (g : Nat)
    (v : Option Nat) (st : OeTracerState) :
    (CaptureStart env f t c inp g v st).traceStack =
        st.outPutTraces.length :: st.traceStack ∧
      (CaptureStart env f t c inp g v st).outPutTraces.length =
        st.outPutTraces.length + 1 := by
  unfold CaptureStart
  split <;>
    simp only [createEnter, callEnter] <;>
    exact ⟨allocPush_stack st _, allocPush_length st _⟩

theorem CaptureExit_pop (o : Bytes) (g : Nat) (e : Option String) (st st' : OeTracerState)
    (h : CaptureExit o g e st = some st') :
    st'.traceStack = st.traceStack.tail ∧
      st'.outPutTraces.length = st.outPutTraces.length := by
  unfold CaptureExit at h
  cases hh : st.traceStack.head? with
  | none => simp [hh] at h
  | some i =>
    cases hp : st.outPutTraces[i]? with
    | none => simp [hh, hp] at h
    | some node =>
      simp only [hh, hp, Option.some.injEq] at h
      subst h
      exact ⟨rfl, by simp⟩

theorem CaptureEnd_pop (o : Bytes) (g : Nat) (e : Option String) (st st' : OeTracerState)
    (h : CaptureEnd o g e st = some st') :
    st'.traceStack = st.traceStack.tail ∧
      st'.outPutTraces.length = st.outPutTraces.length := by
  unfold CaptureEnd at h
  cases hh : st.traceStack.head? with
  | none => simp [hh] at h
  | some i =>
    cases hp : st.outPutTraces[i]? with
    | none => simp [hh, hp] at h
    | some node =>
      simp only [hh, hp, Option.some.injEq] at h
      subst h
      exact ⟨rfl, by simp⟩

theorem CaptureExit_total (o : Bytes) (g : Nat) (e : Option String) (st : OeTracerState)
    (i : Nat) (hh : st.traceStack.head? = some i) (hi : i < st.outPutTraces.length) :
    ∃ st', CaptureExit o g e st = some st' := by
  exact ⟨_, CaptureExit_some st i _ o g e hh (List.getElem?_eq_getElem hi)⟩

theorem CaptureEnd_total (o : Bytes) (g : Nat) (e : Option String) (st : OeTracerState)
    (i : Nat) (hh : st.traceStack.head? = some i) (hi : i < st.outPutTraces.length) :
    ∃ st', CaptureEnd o g e st = some st' := by
  refine ⟨⟨st.outPutTraces.set i
      (if (st.outPutTraces[i]).action.callType = CallTypeCreate then
         createExit (st.outPutTraces[i]) o g e
       else callExit (st.outPutTraces[i]) o g e), st.traceStack.tail, st.env⟩, ?_⟩
  simp [CaptureEnd, hh, List.getElem?_eq_getElem hi]

/-- Generalized balance invariant for build-event streams. -/
theorem processEvents_build :
    ∀ (evs : List TraceEvent) (st : OeTracerState),
      evs.all isBuildEvent = true →
      prefixBalanced st.traceStack.length evs = true →
      (∀ i ∈ st.traceStack, i < st.outPutTraces.length) →
      ∃ st', processEvents evs st = some st' ∧
        st'.outPutTraces.length = st.outPutTraces.length + entersCount evs ∧
        st'.traceStack.length = st.traceStack.length + entersCount evs - exitsCount evs ∧
        exitsCount evs ≤ st.traceStack.length + entersCount evs ∧
        (∀ i ∈ st'.traceStack, i < st'.outPutTraces.length) := by
  intro evs
  induction evs with
  | nil =>
    intro st _ _ hinv
    exact ⟨st, rfl, by simp [entersCount], by simp [entersCount, exitsCount],
      by simp [exitsCount], hinv⟩
  | cons ev evs ih =>
    intro st hshape hbal hinv
    simp only [List.all_cons, Bool.and_eq_true] at hshape
    obtain ⟨hev, hevs⟩ := hshape
    cases ev with
    | start env f t c inp g v =>
      obtain ⟨hstk, hlen⟩ := CaptureStart_stack env f t c inp g v st
      have hinv1 : ∀ i ∈ (CaptureStart env f t c inp g v st).traceStack,
          i < (CaptureStart env f t c inp g v st).outPutTraces.length := by
        intro i hi
        rw [hstk] at hi
        rw [hlen]
        rcases List.mem_cons.mp hi with rfl | hi
        · omega
        · exact Nat.lt_succ_of_lt (hinv i hi)
      have hbal1 : prefixBalanced
          (CaptureStart env f t c inp g v st).traceStack.length evs = true := by
        rw [hstk, List.length_cons]
        simpa [prefixBalanced, isExitEvent, isEnterEvent] using hbal
      obtain ⟨st', hrun, hl, hs, hx, hinv2⟩ := ih _ hevs hbal1 hinv1
      refine ⟨st', by simpa [processEvents, step] using hrun, ?_, ?_, ?_, hinv2⟩ <;>
        simp [entersCount, exitsCount, isEnterEvent, isExitEvent,
          hlen, hstk] at hl hs hx ⊢ <;> omega
    | enter typ f t inp g v =>
      have htyp : enterOp typ = true := hev
      obtain ⟨hstk, hlen⟩ := CaptureEnter_stack typ f t inp g v st htyp
      have hinv1 : ∀ i ∈ (CaptureEnter typ f t inp g v st).traceStack,
          i < (CaptureEnter typ f t inp g v st).outPutTraces.length := by
        intro i hi
        rw [hstk] at hi
        rw [hlen]
        rcases List.mem_cons.mp hi with rfl | hi
        · omega
        · exact Nat.lt_succ_of_lt (hinv i hi)
      have hbal1 : prefixBalanced
          (CaptureEnter typ f t inp g v st).traceStack.length evs = true := by
        rw [hstk, List.length_cons]
        simpa [prefixBalanced, isExitEvent, isEnterEvent] using hbal
      obtain ⟨st', hrun, hl, hs, hx, hinv2⟩ := ih _ hevs hbal1 hinv1
      refine ⟨st', by simpa [processEvents, step] using hrun, ?_, ?_, ?_, hinv2⟩ <;>
        simp [entersCount, exitsCount, isEnterEvent, isExitEvent,
          hlen, hstk] at hl hs hx ⊢ <;> omega
    | exitSub o g e =>
      have hbal0 : (decide (0 < st.traceStack.length) &&
          prefixBalanced (st.traceStack.length - 1) evs) = true := by
        simpa [prefixBalanced, isExitEvent] using hbal
      simp only [Bool.and_eq_true, decide_eq_true_eq] at hbal0
      obtain ⟨hpos, hbal1⟩ := hbal0
      cases hstack : st.traceStack with
      | nil => rw [hstack] at hpos; simp at hpos
      | cons i rest =>
        have hh : st.traceStack.head? = some i := by rw [hstack]; rfl
        have hi : i < st.outPutTraces.length := hinv i (by rw [hstack]; simp)
        obtain ⟨st1, hstep⟩ := CaptureExit_total o g e st i hh hi
        obtain ⟨hstk1, hlen1⟩ := CaptureExit_pop o g e st st1 hstep
        have hinv1 : ∀ j ∈ st1.traceStack, j < st1.outPutTraces.length := by
          intro j hj
          rw [hstk1, hstack] at hj
          rw [hlen1]
          exact hinv j (by rw [hstack]; exact List.mem_cons_of_mem _ hj)
        have hbal2 : prefixBalanced st1.traceStack.length evs = true := by
          rw [hstk1, hstack]
          simpa [hstack] using hbal1
        obtain ⟨st', hrun, hl, hs, hx, hinv2⟩ := ih _ hevs hbal2 hinv1
        refine ⟨st', by simp [processEvents, step, hstep, hrun], ?_, ?_, ?_, hinv2⟩ <;>
          simp [entersCount, exitsCount, isEnterEvent, isExitEvent,
            hlen1, hstk1, hstack] at hl hs hx ⊢ <;>
          omega
    | exitEnd o g e =>
      have hbal0 : (decide (0 < st.traceStack.length) &&
          prefixBalanced (st.traceStack.length - 1) evs) = true := by
        simpa [prefixBalanced, isExitEvent] using hbal
      simp only [Bool.and_eq_true, decide_eq_true_eq] at hbal0
      obtain ⟨hpos, hbal1⟩ := hbal0
      cases hstack : st.traceStack with
      | nil => rw [hstack] at hpos; simp at hpos
      | cons i rest =>
        have hh : st.traceStack.head? = some i := by rw [hstack]; rfl
        have hi : i < st.outPutTraces.length := hinv i (by rw [hstack]; simp)
        obtain ⟨st1, hstep⟩ := CaptureEnd_total o g e st i hh hi
        obtain ⟨hstk1, hlen1⟩ := CaptureEnd_pop o g e st st1 hstep
        have hinv1 : ∀ j ∈ st1.traceStack, j < st1.outPutTraces.length := by
          intro j hj
          rw [hstk1, hstack] at hj
          rw [hlen1]
          exact hinv j (by rw [hstack]; exact List.mem_cons_of_mem _ hj)
        have hbal2 : prefixBalanced st1.traceStack.length evs = true := by
          rw [hstk1, hstack]
          simpa [hstack] using hbal1
        obtain ⟨st', hrun, hl, hs, hx, hinv2⟩ := ih _ hevs hbal2 hinv1
        refine ⟨st', by simp [processEvents, step, hstep, hrun], ?_, ?_, ?_, hinv2⟩ <;>
          simp [entersCount, exitsCount, isEnterEvent, isExitEvent,
            hlen1, hstk1, hstack] at hl hs hx ⊢ <;>
          omega
    | opState pc op g c scope rData depth e =>
      simp [isBuildEvent] at hev

theorem prefixBalanced_append :
    ∀ (p q : List TraceEvent) (d : Nat), prefixBalanced d (p ++ q) = true →
      prefixBalanced d p = true := by
  intro p
  induction p with
  | nil => intro q d _; rfl
  | cons ev p ih =>
    intro q d h
    simp only [List.cons_append, prefixBalanced] at h ⊢
    by_cases hx : isExitEvent ev
    · simp only [hx, if_true, Bool.and_eq_true] at h ⊢
      exact ⟨h.1, ih q _ h.2⟩
    · by_cases he : isEnterEvent ev
      · simp only [hx, he, if_true, if_false] at h ⊢
        exact ih q _ h
      · simp only [hx, he, if_false] at h ⊢
        exact ih q _ h

/-- C2: for any stream of start/enter/exit events in valid nesting order with
N enter-like events (the start plus N-1 enters) and N matching exits, the
streaming builder succeeds, ends with an empty open stack and exactly N
output nodes — and after any prefix of the stream the output already holds
one node per enter seen so far (nodes are appended at their enter event, not
at close). -/
theorem stack_balance (evs : List TraceEvent)
    (hshape : evs.all isBuildEvent = true)
    (hbal : prefixBalanced 0 evs = true)
    (htot : entersCount evs = exitsCount evs) :
    ∃ st', processEvents evs initialState = some st' ∧
      st'.traceStack = [] ∧
      st'.outPutTraces.length = entersCount evs ∧
      ∀ p q, evs = p ++ q → ∃ stp, processEvents p initialState = some stp ∧
        stp.outPutTraces.length = entersCount p := by
  obtain ⟨st', hrun, hlen, hslen, -, -⟩ :=
    processEvents_build evs initialState hshape
      (by simpa [initialState] using hbal) (by simp [initialState])
  refine ⟨st', hrun, ?_, by simpa [initialState] using hlen, ?_⟩
  · have h0 : st'.traceStack.length = 0 := by
      simp only [initialState] at hslen
      simp only [List.length_nil] at hslen
      omega
    exact List.length_eq_zero.mp h0
  · intro p q hpq
    have hshp : p.all isBuildEvent = true := by
      rw [hpq, List.all_append, Bool.and_eq_true] at hshape
      exact hshape.1
    have hbp : prefixBalanced 0 p = true := prefixBalanced_append p q 0 (hpq ▸ hbal)
    obtain ⟨stp, hrunp, hlenp, -, -, -⟩ :=
      processEvents_build p initialState hshp
        (by simpa [initialState] using hbp) (by simp [initialState])
    exact ⟨stp, hrunp, by simpa [initialState] using hlenp⟩

/-- Witness for C2: a root call with one nested call (N = 2). -/
theorem stack_balance_witness :
    ∃ st', processEvents
        [TraceEvent.start {} [1] [2] false [] 100 none,
         TraceEvent.enter VmOp.CALL [2] [3] [] 50 none,
         TraceEvent.exitSub [] 5 none,
         TraceEvent.exitEnd [] 10 none] initialState = some st' ∧
      st'.traceStack = [] ∧ st'.outPutTraces.length = 2 := by
  obtain ⟨st', hrun, hstk, hlen, -⟩ :=
    stack_balance
      [TraceEvent.start {} [1] [2] false [] 100 none,
       TraceEvent.enter VmOp.CALL [2] [3] [] 50 none,
       TraceEvent.exitSub [] 5 none,
       TraceEvent.exitEnd [] 10 none] (by decide) (by decide) (by decide)
  refine ⟨st', hrun, hstk, ?_⟩
  rw [hlen]
  rfl

theorem view_result {x y : Option InternalActionTrace}
    (h : x.map nodeView = y.map nodeView) :
    x.map InternalActionTrace.result = y.map InternalActionTrace.result := by
  cases x <;> cases y <;> simp_all [nodeView]

theorem view_callType {x y : InternalActionTrace} (h : nodeView x = nodeView y) :
    x.action.callType = y.action.callType := by
  simp only [nodeView, Prod.mk.injEq] at h
  rw [h.1]

theorem view_closedOk {x y : InternalActionTrace} (h : nodeView x = nodeView y) :
    closedOk x ↔ closedOk y := by
  simp only [nodeView, Prod.mk.injEq] at h
  obtain ⟨h1, h2, h3, -⟩ := h
  simp [closedOk, h1, h2, h3]

theorem exitDispatch_action (node : InternalActionTrace) (o : Bytes) (g : Nat)
    (e : Option String) : (exitDispatch node o g e).action = node.action := by
  unfold exitDispatch createExit callExit suicideExit
  split
  · split
    · rfl
    · split <;> rfl
  · split
    · split
      · rfl
      · split <;> rfl
    · split
      · split
        · rfl
        · split <;> rfl
      · rfl

theorem exitDispatch_closedOk (node : InternalActionTrace) (o : Bytes) (g : Nat)
    (err : Option String) (hres : node.result = none) (h6 : node.action.callType < 6)
    (he : ∀ s, err = some s → s ≠ "") : closedOk (exitDispatch node o g err) := by
  by_cases herr : node.error = ""
  · cases err with
    | none =>
      have hct : node.action.callType = 0 ∨ node.action.callType = 1 ∨
          node.action.callType = 2 ∨ node.action.callType = 3 ∨
          node.action.callType = 4 ∨ node.action.callType = 5 := by omega
      rcases hct with h | h | h | h | h | h <;>
        simp [exitDispatch, createExit, callExit, suicideExit, h, herr, closedOk, hres,
          CallTypeCreate, CallTypeCall, CallTypeCallCode, CallTypeDelegateCall,
          CallTypeStaticCall, CallTypeSuicide]
    | some s =>
      have hs : s ≠ "" := he s rfl
      rw [exitDispatch_of_err_some node o g s herr h6]
      simp [closedOk, hs]
  · rw [exitDispatch_of_error node o g err herr h6]
    simp [closedOk, herr]

/-- `allocPush` preserves the reachable-state invariant. -/
theorem allocPush_inv (st : OeTracerState) (node : InternalActionTrace)
    (hInv : StateInv st) (hres : node.result = none) (h6 : node.action.callType < 6)
    (hroot : st.traceStack = [] → node.action.callType ≠ CallTypeSuicide) :
    StateInv (allocPush st node) := by
  have hlen := allocPush_length st node
  have hstk := allocPush_stack st node
  obtain ⟨ta, hlast⟩ := allocPush_last st node
  have hview := allocPush_view st node
  constructor
  · intro i hi
    rw [hstk] at hi
    rw [hlen]
    rcases List.mem_cons.mp hi with rfl | hi
    · omega
    · exact Nat.lt_succ_of_lt (hInv.bound i hi)
  · rw [hstk]
    exact List.nodup_cons.mpr ⟨fun hmem => absurd (hInv.bound _ hmem) (by omega),
      hInv.nodup⟩
  · intro i hi
    rw [hstk] at hi
    rcases List.mem_cons.mp hi with rfl | hi
    · rw [hlast]
      simpa using hres
    · rw [view_result (hview i (hInv.bound i hi))]
      exact hInv.openRes i hi
  · intro j n hn
    have hjlt : j < (allocPush st node).outPutTraces.length :=
      (List.getElem?_eq_some.mp hn).1
    rw [hlen] at hjlt
    by_cases hj : j < st.outPutTraces.length
    · have := hview j hj
      rw [hn] at this
      cases hold : st.outPutTraces[j]? with
      | none => rw [hold] at this; simp at this
      | some m =>
        rw [hold] at this
        simp only [Option.map_some', Option.some.injEq] at this
        rw [view_callType this]
        exact hInv.ctLt j m hold
    · have hj2 : j = st.outPutTraces.length := by omega
      subst hj2
      rw [hlast] at hn
      cases hn
      exact h6
  · intro j n hn hj
    rw [hstk] at hj
    have hj1 : j ≠ st.outPutTraces.length := fun he2 => hj (he2 ▸ List.mem_cons_self _ _)
    have hj2 : j ∉ st.traceStack := fun hm => hj (List.mem_cons_of_mem _ hm)
    have hjlt : j < (allocPush st node).outPutTraces.length :=
      (List.getElem?_eq_some.mp hn).1
    rw [hlen] at hjlt
    have hjlt2 : j < st.outPutTraces.length := by omega
    have := hview j hjlt2
    rw [hn] at this
    cases hold : st.outPutTraces[j]? with
    | none => rw [hold] at this; simp at this
    | some m =>
      rw [hold] at this
      simp only [Option.map_some', Option.some.injEq] at this
      exact (view_closedOk this).mpr (hInv.closed j m hold hj2)
  · intro i hi
    rw [hstk] at hi
    cases hold : st.traceStack with
    | nil =>
      rw [hold] at hi
      simp only [List.getLast?_singleton, Option.some.injEq] at hi
      subst hi
      exact ⟨_, hlast, by simpa using hroot hold⟩
    | cons a l =>
      rw [hold] at hi
      have hi2 : (a :: l).getLast? = some i := hi
      have hmem : i ∈ a :: l := List.mem_of_mem_getLast? (by simp [hi2])
      have hilt : i < st.outPutTraces.length := hInv.bound i (hold ▸ hmem)
      obtain ⟨n0, hn0, hct0⟩ := hInv.root i (by rw [hold]; exact hi2)
      have := hview i hilt
      rw [hn0] at this
      cases hnew : (allocPush st node).outPutTraces[i]? with
      | none => rw [hnew] at this; simp at this
      | some m =>
        rw [hnew] at this
        simp only [Option.map_some', Option.some.injEq] at this
        exact ⟨m, rfl, by rw [view_callType this]; exact hct0⟩

theorem CaptureEnter_inv (typ : VmOp) (f t inp : Bytes) (g : Nat) (v : Option Nat)
    (st : OeTracerState) (h : enterOp typ = true) (hInv : StateInv st)
    (hroot : st.traceStack = [] → typ ≠ VmOp.SELFDESTRUCT) :
    StateInv (CaptureEnter typ f t inp g v st) := by
  obtain ⟨node, heq, -, hres, -, -, h6, hsui⟩ := CaptureEnter_eq_allocPush typ f t inp g v st h
  rw [heq]
  exact allocPush_inv st node hInv hres h6 (fun hemp hct => (hroot hemp) (hsui.mp hct))

theorem StateInv_env (st : OeTracerState) (e : Env) (h : StateInv st) :
    StateInv { st with env := e } :=
  ⟨h.bound, h.nodup, h.openRes, h.ctLt, h.closed, h.root⟩

theorem CaptureStart_inv (env : Env) (f t : Bytes) (c : Bool) (inp : Bytes) (g : Nat)
    (v : Option Nat) (st : OeTracerState) (hInv : StateInv st) :
    StateInv (CaptureStart env f t c inp g v st) := by
  unfold CaptureStart
  refine StateInv_env _ env ?_
  split <;>
    simp only [createEnter, callEnter] <;>
    refine allocPush_inv st _ hInv rfl ?_ ?_ <;>
    simp [CallTypeCreate, CallTypeCall, CallTypeSuicide]

theorem CaptureExit_inv (o : Bytes) (g : Nat) (e : Option String) (st st' : OeTracerState)
    (h : CaptureExit o g e st = some st') (hInv : StateInv st)
    (he : ∀ s, e = some s → s ≠ "") : StateInv st' := by
  unfold CaptureExit at h
  cases hh : st.traceStack.head? with
  | none => simp [hh] at h
  | some i =>
    cases hp : st.outPutTraces[i]? with
    | none => simp [hh, hp] at h
    | some node =>
      simp only [hh, hp, Option.some.injEq] at h
      subst h
      obtain ⟨rest, hstack⟩ : ∃ rest, st.traceStack = i :: rest := by
        cases hs : st.traceStack with
        | nil => rw [hs] at hh; simp at hh
        | cons a l =>
          rw [hs] at hh
          simp only [List.head?_cons, Option.some.injEq] at hh
          exact ⟨l, by rw [hh]⟩
      have hi : i < st.outPutTraces.length :=
        hInv.bound i (by rw [hstack]; exact List.mem_cons_self _ _)
      have hnr : i ∉ rest := (List.nodup_cons.mp (hstack ▸ hInv.nodup)).1
      have hresn : node.result = none := by
        have := hInv.openRes i (by rw [hstack]; exact List.mem_cons_self _ _)
        rw [hp] at this
        simpa using this
      constructor
      · intro j hj
        simp only [hstack, List.tail_cons] at hj
        simp only [List.length_set]
        exact hInv.bound j (by rw [hstack]; exact List.mem_cons_of_mem _ hj)
      · show st.traceStack.tail.Nodup
        rw [hstack, List.tail_cons]
        exact (List.nodup_cons.mp (hstack ▸ hInv.nodup)).2
      · intro j hj
        simp only [hstack, List.tail_cons] at hj
        have hji : i ≠ j := fun hx => hnr (hx ▸ hj)
        show ((st.outPutTraces.set i _)[j]?).map _ = some none
        rw [List.getElem?_set_ne hji]
        exact hInv.openRes j (by rw [hstack]; exact List.mem_cons_of_mem _ hj)
      · intro j n hn
        by_cases hji : i = j
        · subst hji
          rw [List.getElem?_set_self hi] at hn
          cases hn
          rw [exitDispatch_action]
          exact hInv.ctLt i node hp
        · rw [List.getElem?_set_ne hji] at hn
          exact hInv.ctLt j n hn
      · intro j n hn hj
        simp only [hstack, List.tail_cons] at hj
        by_cases hji : i = j
        · subst hji
          rw [List.getElem?_set_self hi] at hn
          cases hn
          exact exitDispatch_closedOk node o g e hresn (hInv.ctLt i node hp) he
        · rw [List.getElem?_set_ne hji] at hn
          refine hInv.closed j n hn ?_
          rw [hstack]
          intro hmem
          rcases List.mem_cons.mp hmem with hx | hmem2
          · exact hji hx.symm
          · exact hj hmem2
      · intro i0 hlast
        simp only [hstack, List.tail_cons] at hlast
        have hi0mem : i0 ∈ rest := List.mem_of_mem_getLast? (by simp [hlast])
        have hne : i ≠ i0 := fun hx => hnr (hx ▸ hi0mem)
        have hold : (i :: rest).getLast? = some i0 := by
          cases rest with
          | nil => simp at hlast
          | cons b l => exact hlast
        obtain ⟨n0, hn0, hct⟩ := hInv.root i0 (by rw [hstack]; exact hold)
        show ∃ n, (st.outPutTraces.set i _)[i0]? = some n ∧ _
        rw [List.getElem?_set_ne hne]
        exact ⟨n0, hn0, hct⟩

theorem endDispatch_closedOk (node : InternalActionTrace) (o : Bytes) (g : Nat)
    (err : Option String) (hres : node.result = none)
    (hns : node.action.callType ≠ CallTypeSuicide) (he : ∀ s, err = some s → s ≠ "") :
    closedOk (if node.action.callType = CallTypeCreate then createExit node o g err
              else callExit node o g err) := by
  by_cases herr : node.error = ""
  · cases err with
    | none =>
      split <;> simp [createExit, callExit, closedOk, herr, hns]
    | some s =>
      have hs : s ≠ "" := he s rfl
      split <;> simp [createExit, callExit, closedOk, herr, hns, hs]
  · split <;> simp [createExit, callExit, closedOk, herr, hns]

theorem endDispatch_action (node : InternalActionTrace) (o : Bytes) (g : Nat)
    (err : Option String) :
    (if node.action.callType = CallTypeCreate then createExit node o g err
     else callExit node o g err).action = node.action := by
  unfold createExit callExit
  split
  · split
    · rfl
    · split <;> rfl
  · split
    · rfl
    · split <;> rfl

theorem CaptureEnd_inv (o : Bytes) (g : Nat) (e : Option String) (st st' : OeTracerState)
    (h : CaptureEnd o g e st = some st') (hInv : StateInv st)
    (he : ∀ s, e = some s → s ≠ "") (hone : st.traceStack.length = 1) :
    StateInv st' := by
  unfold CaptureEnd at h
  cases hh : st.traceStack.head? with
  | none => simp [hh] at h
  | some i =>
    cases hp : st.outPutTraces[i]? with
    | none => simp [hh, hp] at h
    | some node =>
      simp only [hh, hp, Option.some.injEq] at h
      subst h
      have hstack : st.traceStack = [i] := by
        cases hs : st.traceStack with
        | nil => rw [hs] at hone; simp at hone
        | cons a l =>
          rw [hs] at hh hone
          simp only [List.head?_cons, Option.some.injEq] at hh
          simp only [List.length_cons] at hone
          have : l = [] := List.length_eq_zero.mp (by omega)
          rw [hh, this]
      have hi : i < st.outPutTraces.length :=
        hInv.bound i (by rw [hstack]; exact List.mem_cons_self _ _)
      have hresn : node.result = none := by
        have := hInv.openRes i (by rw [hstack]; exact List.mem_cons_self _ _)
        rw [hp] at this
        simpa using this
      have hns : node.action.callType ≠ CallTypeSuicide := by
        obtain ⟨n0, hn0, hct⟩ := hInv.root i (by rw [hstack]; rfl)
        rw [hp] at hn0
        cases hn0
        exact hct
      constructor
      · intro j hj
        simp only [hstack, List.tail_cons] at hj
        simp at hj
      · show st.traceStack.tail.Nodup
        rw [hstack, List.tail_cons]
        exact List.nodup_nil
      · intro j hj
        simp only [hstack, List.tail_cons] at hj
        simp at hj
      · intro j n hn
        by_cases hji : i = j
        · subst hji
          rw [List.getElem?_set_self hi] at hn
          cases hn
          rw [endDispatch_action]
          exact hInv.ctLt i node hp
        · rw [List.getElem?_set_ne hji] at hn
          exact hInv.ctLt j n hn
      · intro j n hn hj
        by_cases hji : i = j
        · subst hji
          rw [List.getElem?_set_self hi] at hn
          cases hn
          exact endDispatch_closedOk node o g e hresn hns he
        · rw [List.getElem?_set_ne hji] at hn
          refine hInv.closed j n hn ?_
          rw [hstack]
          intro hmem
          rcases List.mem_cons.mp hmem with hx | hmem2
          · exact hji hx.symm
          · simp at hmem2
      · intro i0 hlast
        simp only [hstack, List.tail_cons] at hlast
        simp at hlast

theorem checkDepthAboveLitmit_ne (d : Nat) (s : String)
    (h : checkDepthAboveLitmit d = some s) : s ≠ "" := by
  unfold checkDepthAboveLitmit at h
  split at h
  · cases h; decide
  · simp at h

theorem checkCanTransfer_ne (env : Env) (a : Bytes) (v : Nat) (s : String)
    (h : checkCanTransfer env a v = some s) : s ≠ "" := by
  unfold checkCanTransfer at h
  split at h
  · cases h; decide
  · simp at h

theorem checkNonceMatch_ne (env : Env) (a : Bytes) (s : String)
    (h : checkNonceMatch env a = some s) : s ≠ "" := by
  simp only [checkNonceMatch] at h
  split at h
  · cases h; decide
  · simp at h

theorem checkContractNotExist_ne (env : Env) (a : Bytes) (s : String)
    (h : checkContractNotExist env a = some s) : s ≠ "" := by
  simp only [checkContractNotExist] at h
  split at h
  · cases h; decide
  · simp at h

theorem createPreProcessFailed_invStack (op : VmOp) (scope : Scope) (gas : Nat)
    (v : Option Nat) (e : String) (st st' : OeTracerState)
    (hop : op = VmOp.CREATE ∨ op = VmOp.CREATE2)
    (h : createPreProcessFailed op scope gas v e st = some st')
    (hInv : StateInv st) (hene : e ≠ "") :
    StateInv st' ∧ st'.traceStack = st.traceStack := by
  have hopE : enterOp op = true := by rcases hop with rfl | rfl <;> rfl
  have hopS : op ≠ VmOp.SELFDESTRUCT := by rcases hop with rfl | rfl <;> decide
  unfold createPreProcessFailed at h
  have h1 : StateInv (CaptureEnter op scope.contractAddress zeroAddress
      (memGetCopy scope.memData (stackBack scope 1) (stackBack scope 2)) gas v st) :=
    CaptureEnter_inv _ _ _ _ _ _ _ hopE hInv (fun _ => hopS)
  refine ⟨CaptureExit_inv _ _ _ _ _ h h1 (fun s hs => by cases hs; exact hene), ?_⟩
  obtain ⟨st'', node, hrun, hstk, -⟩ :=
    enter_exit_synthesizes op scope.contractAddress zeroAddress
      (memGetCopy scope.memData (stackBack scope 1) (stackBack scope 2)) gas v e st
      hopE hopS
  rw [hrun] at h
  cases h
  exact hstk

theorem callPreProcessFailed_invStack (op : VmOp) (scope : Scope) (gas : Nat)
    (v : Option Nat) (e : String) (st st' : OeTracerState)
    (hop : op = VmOp.CALL ∨ op = VmOp.CALLCODE ∨ op = VmOp.DELEGATECALL ∨
      op = VmOp.STATICCALL)
    (h : callPreProcessFailed op scope gas v e st = some st')
    (hInv : StateInv st) (hene : e ≠ "") :
    StateInv st' ∧ st'.traceStack = st.traceStack := by
  have hopE : enterOp op = true := by rcases hop with rfl | rfl | rfl | rfl <;> rfl
  have hopS : op ≠ VmOp.SELFDESTRUCT := by rcases hop with rfl | rfl | rfl | rfl <;> decide
  unfold callPreProcessFailed at h
  have h1 : StateInv (CaptureEnter op scope.contractAddress (bytes20 (stackBack scope 1))
      (if op = VmOp.CALL ∨ op = VmOp.CALLCODE then
         memGetCopy scope.memData (stackBack scope 3) (stackBack scope 4)
       else memGetCopy scope.memData (stackBack scope 2) (stackBack scope 3)) gas v st) :=
    CaptureEnter_inv _ _ _ _ _ _ _ hopE hInv (fun _ => hopS)
  refine ⟨CaptureExit_inv _ _ _ _ _ h h1 (fun s hs => by cases hs; exact hene), ?_⟩
  obtain ⟨st'', node, hrun, hstk, -⟩ :=
    enter_exit_synthesizes op scope.contractAddress (bytes20 (stackBack scope 1))
      (if op = VmOp.CALL ∨ op = VmOp.CALLCODE then
         memGetCopy scope.memData (stackBack scope 3) (stackBack scope 4)
       else memGetCopy scope.memData (stackBack scope 2) (stackBack scope 3)) gas v e st
      hopE hopS
  rw [hrun] at h
  cases h
  exact hstk

theorem CaptureState_invStack (pc : Nat) (op : VmOp) (gas cost : Nat) (scope : Scope)
    (rData : Bytes) (depth : Nat) (err : Option String) (st st' : OeTracerState)
    (h : CaptureState pc op gas cost scope rData depth err st = some st')
    (hInv : StateInv st) (he : ∀ s, err = some s → s ≠ "") :
    StateInv st' ∧ st'.traceStack = st.traceStack := by
  unfold CaptureState at h
  cases op <;> simp only at h
  case CREATE | CREATE2 =>
    cases herr : err with
    | some e =>
      rw [herr] at h
      exact createPreProcessFailed_invStack _ _ _ _ _ _ _ (by first | exact Or.inl rfl | exact Or.inr rfl) h hInv
        (he e herr) |>.imp id id
    | none =>
      rw [herr] at h
      cases hd : checkDepthAboveLitmit depth with
      | some e =>
        rw [hd] at h
        exact createPreProcessFailed_invStack _ _ _ _ _ _ _ (by first | exact Or.inl rfl | exact Or.inr rfl) h hInv
          (checkDepthAboveLitmit_ne _ _ hd)
      | none =>
        rw [hd] at h
        cases hc : checkCanTransfer st.env scope.contractAddress _ with
        | some e =>
          rw [hc] at h
          exact createPreProcessFailed_invStack _ _ _ _ _ _ _ (by first | exact Or.inl rfl | exact Or.inr rfl) h hInv
            (checkCanTransfer_ne _ _ _ _ hc)
        | none =>
          rw [hc] at h
          cases hn : checkNonceMatch st.env scope.contractAddress with
          | some e =>
            rw [hn] at h
            exact createPreProcessFailed_invStack _ _ _ _ _ _ _ (by first | exact Or.inl rfl | exact Or.inr rfl) h hInv
              (checkNonceMatch_ne _ _ _ hn)
          | none =>
            rw [hn] at h
            cases hx : checkContractNotExist st.env scope.contractAddress with
            | some e =>
              rw [hx] at h
              exact createPreProcessFailed_invStack _ _ _ _ _ _ _ (by first | exact Or.inl rfl | exact Or.inr rfl) h hInv
                (checkContractNotExist_ne _ _ _ hx)
            | none =>
              rw [hx] at h
              cases h
              exact ⟨hInv, rfl⟩
  case CALL | CALLCODE =>
    cases hd : checkDepthAboveLitmit depth with
    | some e =>
      rw [hd] at h
      exact callPreProcessFailed_invStack _ _ _ _ _ _ _ (by simp) h hInv
        (checkDepthAboveLitmit_ne _ _ hd)
    | none =>
      rw [hd] at h
      cases hc : checkCanTransfer st.env scope.contractAddress _ with
      | some e =>
        rw [hc] at h
        exact callPreProcessFailed_invStack _ _ _ _ _ _ _ (by simp) h hInv
          (checkCanTransfer_ne _ _ _ _ hc)
      | none =>
        rw [hc] at h
        cases h
        exact ⟨hInv, rfl⟩
  case DELEGATECALL | STATICCALL =>
    cases herr : err with
    | some e =>
      rw [herr] at h
      exact callPreProcessFailed_invStack _ _ _ _ _ _ _ (by simp) h hInv (he e herr)
    | none =>
      rw [herr] at h
      cases hd : checkDepthAboveLitmit depth with
      | some e =>
        rw [hd] at h
        exact callPreProcessFailed_invStack _ _ _ _ _ _ _ (by simp) h hInv
          (checkDepthAboveLitmit_ne _ _ hd)
      | none =>
        rw [hd] at h
        cases h
        exact ⟨hInv, rfl⟩
  case REVERT =>
    cases hh : st.traceStack.head? with
    | none => simp [hh] at h
    | some i =>
      cases hp : st.outPutTraces[i]? with
      | none => simp [hh, hp] at h
      | some node =>
        simp only [hh, hp, Option.some.injEq] at h
        subst h
        have hi : i < st.outPutTraces.length := (List.getElem?_eq_some.mp hp).1
        have himem : i ∈ st.traceStack := by
          cases hs : st.traceStack with
          | nil => rw [hs] at hh; simp at hh
          | cons a l =>
            rw [hs] at hh
            simp only [List.head?_cons, Option.some.injEq] at hh
            rw [hh]
            exact List.mem_cons_self _ _
        refine ⟨⟨?_, hInv.nodup, ?_, ?_, ?_, ?_⟩, rfl⟩
        · intro j hj
          simp only [List.length_set]
          exact hInv.bound j hj
        · intro j hj
          by_cases hji : i = j
          · subst hji
            have := hInv.openRes i hj
            rw [hp] at this
            rw [List.getElem?_set_self hi]
            simpa using this
          · rw [List.getElem?_set_ne hji]
            exact hInv.openRes j hj
        · intro j n hn
          by_cases hji : i = j
          · subst hji
            rw [List.getElem?_set_self hi] at hn
            cases hn
            exact hInv.ctLt i node hp
          · rw [List.getElem?_set_ne hji] at hn
            exact hInv.ctLt j n hn
        · intro j n hn hj
          by_cases hji : i = j
          · exact absurd (hji ▸ himem) hj
          · rw [List.getElem?_set_ne hji] at hn
            exact hInv.closed j n hn hj
        · intro i0 hlast
          obtain ⟨n0, hn0, hct⟩ := hInv.root i0 hlast
          by_cases hji : i = i0
          · subst hji
            rw [hp] at hn0
            cases hn0
            refine ⟨{ node with error := "execution reverted" }, ?_, hct⟩
            rw [List.getElem?_set_self hi]
          · rw [List.getElem?_set_ne hji]
            exact ⟨n0, hn0, hct⟩
  case SELFDESTRUCT =>
    cases h
    exact ⟨hInv, rfl⟩
  case OTHER =>
    cases h
    exact ⟨hInv, rfl⟩

/-- Any state reached from `NewOeTracer`'s state through a contract-respecting
event stream satisfies the tracer invariant. -/
theorem processEvents_inv :
    ∀ (evs : List TraceEvent) (st st' : OeTracerState),
      evs.all noEmptyErr = true →
      drivingOk st.traceStack.length evs = true →
      StateInv st →
      processEvents evs st = some st' → StateInv st' := by
  intro evs
  induction evs with
  | nil =>
    intro st st' _ _ hInv h
    cases h
    exact hInv
  | cons ev evs ih =>
    intro st st' herr hdrv hInv h
    simp only [List.all_cons, Bool.and_eq_true] at herr
    obtain ⟨hev, hevs⟩ := herr
    simp only [processEvents] at h
    cases hstep : step ev st with
    | none => rw [hstep] at h; simp at h
    | some st1 =>
      rw [hstep] at h
      have h2 : processEvents evs st1 = some st' := h
      cases ev with
      | start env f t c inp g v =>
        simp only [drivingOk, Bool.and_eq_true, decide_eq_true_eq] at hdrv
        obtain ⟨hd0, hdrv1⟩ := hdrv
        have hst1 : CaptureStart env f t c inp g v st = st1 := by
          simpa [step] using hstep
        subst hst1
        refine ih _ st' hevs ?_ (CaptureStart_inv env f t c inp g v st hInv) h2
        rw [(CaptureStart_stack env f t c inp g v st).1]
        simp only [List.length_cons, hd0]
        exact hdrv1
      | enter typ f t inp g v =>
        simp only [drivingOk, Bool.and_eq_true, decide_eq_true_eq] at hdrv
        obtain ⟨⟨htyp, hpos⟩, hdrv1⟩ := hdrv
        have hst1 : CaptureEnter typ f t inp g v st = st1 := by
          simpa [step] using hstep
        subst hst1
        refine ih _ st' hevs ?_
          (CaptureEnter_inv typ f t inp g v st htyp hInv
            (fun hemp => absurd hpos (by simp [hemp]))) h2
        rw [(CaptureEnter_stack typ f t inp g v st htyp).1]
        simpa using hdrv1
      | exitSub o g e =>
        simp only [drivingOk, Bool.and_eq_true, decide_eq_true_eq] at hdrv
        obtain ⟨hpos, hdrv1⟩ := hdrv
        have hstep2 : CaptureExit o g e st = some st1 := by simpa [step] using hstep
        have he : ∀ s, e = some s → s ≠ "" := by
          intro s hs
          subst hs
          simpa [noEmptyErr] using hev
        refine ih _ st' hevs ?_ (CaptureExit_inv o g e st st1 hstep2 hInv he) h2
        rw [(CaptureExit_pop o g e st st1 hstep2).1, List.length_tail]
        exact hdrv1
      | exitEnd o g e =>
        simp only [drivingOk, Bool.and_eq_true, decide_eq_true_eq] at hdrv
        obtain ⟨hd1, hdrv1⟩ := hdrv
        have hstep2 : CaptureEnd o g e st = some st1 := by simpa [step] using hstep
        have he : ∀ s, e = some s → s ≠ "" := by
          intro s hs
          subst hs
          simpa [noEmptyErr] using hev
        refine ih _ st' hevs ?_ (CaptureEnd_inv o g e st st1 hstep2 hInv he hd1) h2
        rw [(CaptureEnd_pop o g e st st1 hstep2).1, List.length_tail, hd1]
        exact hdrv1
      | opState pc op g2 c scope rData depth e =>
        simp only [drivingOk, Bool.and_eq_true, decide_eq_true_eq] at hdrv
        obtain ⟨hpos, hdrv1⟩ := hdrv
        have hstep2 : CaptureState pc op g2 c scope rData depth e st = some st1 := by
          simpa [step] using hstep
        have he : ∀ s, e = some s → s ≠ "" := by
          intro s hs
          subst hs
          simpa [noEmptyErr] using hev
        obtain ⟨hinv1, hstk1⟩ :=
          CaptureState_invStack pc op g2 c scope rData depth e st st1 hstep2 hInv he
        refine ih _ st' hevs ?_ hinv1 h2
        rw [hstk1]
        exact hdrv1

/-- C3 (amended): after any contract-respecting event stream with non-empty
error messages, every node no longer on the open stack satisfies: a
SELFDESTRUCT node never carries a result (so one closed without error has
neither result nor error), and every other closed node carries exactly one
of result/error. -/
theorem closed_nodes_result_error (evs : List TraceEvent) (st' : OeTracerState)
    (herr : evs.all noEmptyErr = true)
    (hdrv : drivingOk 0 evs = true)
    (h : processEvents evs initialState = some st') :
    ∀ (j : Nat) (n : InternalActionTrace), st'.outPutTraces[j]? = some n →
      j ∉ st'.traceStack →
      (n.action.callType = CallTypeSuicide → n.result = none) ∧
      (n.action.callType ≠ CallTypeSuicide → (n.result.isSome ↔ n.error = "")) := by
  have hinv0 : StateInv initialState := by
    constructor <;> simp [initialState]
  have hinv := processEvents_inv evs initialState st' herr
    (by simpa [initialState] using hdrv) hinv0 h
  exact fun j n hn hj => hinv.closed j n hn hj

/-- Witness for the amended C3 on a concrete stream containing a successful
SELFDESTRUCT and a successful root call. -/
theorem closed_nodes_result_error_witness :
    ∃ st', processEvents
        [TraceEvent.start {} [1] [2] false [] 100 none,
         TraceEvent.enter VmOp.SELFDESTRUCT [3] [4] [] 0 (some 7),
         TraceEvent.exitSub [] 0 none,
         TraceEvent.exitEnd [] 10 none] initialState = some st' ∧
      ∀ (j : Nat) (n : InternalActionTrace), st'.outPutTraces[j]? = some n →
        j ∉ st'.traceStack →
        (n.action.callType = CallTypeSuicide → n.result = none) ∧
        (n.action.callType ≠ CallTypeSuicide → (n.result.isSome ↔ n.error = "")) := by
  obtain ⟨st', hrun⟩ : ∃ st', processEvents
      [TraceEvent.start {} [1] [2] false [] 100 none,
       TraceEvent.enter VmOp.SELFDESTRUCT [3] [4] [] 0 (some 7),
       TraceEvent.exitSub [] 0 none,
       TraceEvent.exitEnd [] 10 none] initialState = some st' := ⟨_, rfl⟩
  exact ⟨st', hrun, closed_nodes_result_error _ st' (by decide) (by decide) hrun⟩

/-- C3 counterexample: a SELFDESTRUCT node closed by its matching exit with
no error ends with NEITHER `result` nor `error` set, refuting "exactly one
of result/error is set for every closed node, including SelfDestruct
nodes". -/
theorem closed_suicide_neither_result_nor_error :
    ∃ st', processEvents
        [TraceEvent.start {} [1] [2] false [] 100 none,
         TraceEvent.enter VmOp.SELFDESTRUCT [3] [4] [] 0 (some 7),
         TraceEvent.exitSub [] 0 none,
         TraceEvent.exitEnd [] 10 none] initialState = some st' ∧
      st'.traceStack = [] ∧
      ∃ n, st'.outPutTraces[1]? = some n ∧ n.action.callType = CallTypeSuicide ∧
        n.result = none ∧ n.error = "" ∧
        ¬ ((n.result ≠ none ∧ n.error = "") ∨ (n.result = none ∧ n.error ≠ "")) := by
  refine ⟨_, rfl, rfl, _, rfl, rfl, rfl, rfl, ?_⟩
  intro hc
  rcases hc with ⟨hr, -⟩ | ⟨-, he⟩
  · exact hr rfl
  · exact he rfl

theorem parseItem_succ_cons (fuel : Nat) (b : Nat) (rest : List Nat) :
    parseItem (fuel + 1) (b :: rest) =
      (if b < 128 then some (.str [b], rest)
       else if b < 184 then
         match splitAt? (b - 128) rest with
         | none => none
         | some (s, r) => some (.str s, r)
       else if b < 192 then
         match splitAt? (b - 183) rest with
         | none => none
         | some (lenBytes, r) =>
           match splitAt? (beVal lenBytes) r with
           | none => none
           | some (s, r2) => some (.str s, r2)
       else if b < 248 then
         match splitAt? (b - 192) rest with
         | none => none
         | some (payload, r) =>
           match parseItems fuel payload with
           | none => none
           | some items => some (.list items, r)
       else
         match splitAt? (b - 247) rest with
         | none => none
         | some (lenBytes, r) =>
           match splitAt? (beVal lenBytes) r with
           | none => none
           | some (payload, r2) =>
             match parseItems fuel payload with
             | none => none
             | some items => some (.list items, r2)) := rfl

theorem parseItems_succ_cons (fuel : Nat) (x : Nat) (xs : List Nat) :
    parseItems (fuel + 1) (x :: xs) =
      (match parseItem fuel (x :: xs) with
       | none => none
       | some (it, r) =>
         match parseItems fuel r with
         | none => none
         | some items => some (it :: items)) := rfl

theorem beVal_append (l : List Nat) (b : Nat) : beVal (l ++ [b]) = 256 * beVal l + b := by
  simp only [beVal, List.foldl_append, List.foldl_cons, List.foldl_nil]
  omega

theorem beVal_beBytes : ∀ n, beVal (beBytes n) = n := by
  intro n
  induction n using Nat.strong_induction_on with
  | _ n ih =>
    by_cases h : n = 0
    · subst h
      rw [beBytes]
      rfl
    · rw [beBytes, dif_neg h,
        beVal_append, ih (n / 256) (Nat.div_lt_self (Nat.pos_of_ne_zero h) (by omega))]
      omega

theorem beBytes_ne_nil (n : Nat) (h : n ≠ 0) : beBytes n ≠ [] := by
  rw [beBytes]
  simp [h]

theorem beBytes_head : ∀ n, n ≠ 0 → ∃ b bs, beBytes n = b :: bs ∧ b ≠ 0 := by
  intro n
  induction n using Nat.strong_induction_on with
  | _ n ih =>
    intro h
    rw [beBytes, dif_neg h]
    by_cases h2 : n / 256 = 0
    · rw [h2]
      refine ⟨n % 256, [], ?_, by omega⟩
      rw [beBytes]
      rfl
    · obtain ⟨b, bs, hbs, hb⟩ :=
        ih (n / 256) (Nat.div_lt_self (Nat.pos_of_ne_zero h) (by omega)) h2
      exact ⟨b, bs ++ [n % 256], by rw [hbs]; rfl, hb⟩

theorem beBytes_length_le : ∀ k n, n < 256 ^ k → (beBytes n).length ≤ k := by
  intro k
  induction k with
  | zero =>
    intro n h
    simp only [pow_zero, Nat.lt_one_iff] at h
    subst h
    rw [beBytes]
    simp
  | succ k ih =>
    intro n h
    by_cases h0 : n = 0
    · subst h0
      rw [beBytes]
      simp
    · rw [beBytes, dif_neg h0]
      have hdiv : n / 256 < 256 ^ k := by
        rw [Nat.div_lt_iff_lt_mul (by omega : (0:Nat) < 256)]
        calc n < 256 ^ (k + 1) := h
          _ = 256 ^ k * 256 := by ring
      have := ih (n / 256) hdiv
      simp only [List.length_append, List.length_cons, List.length_nil]
      omega

theorem rlpSz_pos (it : RlpItem) : 1 ≤ rlpSz it := by
  cases it <;> simp [rlpSz]

theorem rlpSerialize_ne_nil : ∀ it, rlpSerialize it ≠ [] := by
  intro it
  cases it with
  | str s =>
    rw [rlpSerialize]
    split
    · rename_i hc
      intro he
      rw [he] at hc
      simp at hc
    · split <;> simp
  | list items =>
    simp only [rlpSerialize]
    split <;> simp

theorem splitAt?_exact (l r : List Nat) : splitAt? l.length (l ++ r) = some (l, r) := by
  simp [splitAt?, List.take_left, List.drop_left]

theorem parse_serialize_aux : ∀ n : Nat,
    (∀ it, rlpSz it ≤ n → rlpBounded it = true → ∀ fuel, rlpSz it ≤ fuel →
      ∀ rest, parseItem fuel (rlpSerialize it ++ rest) = some (it, rest)) ∧
    (∀ items, rlpSzList items ≤ n → rlpBoundedList items = true → ∀ fuel,
      rlpSzList items ≤ fuel → parseItems fuel (rlpSerializeList items) = some items) := by
  intro n
  induction n using Nat.strong_induction_on with
  | _ n ih =>
    constructor
    · intro it hsz hbd fuel hfuel rest
      obtain ⟨f, rfl⟩ : ∃ f, fuel = f + 1 := by
        cases fuel with
        | zero => exact absurd hfuel (by have := rlpSz_pos it; omega)
        | succ f => exact ⟨f, rfl⟩
      cases it with
      | str s =>
        have hbd' : s.length < 2 ^ 64 := by simpa [rlpBounded] using hbd
        rw [rlpSerialize]
        split
        · rename_i hc
          obtain ⟨h1, h2⟩ := hc
          obtain ⟨b, rfl⟩ : ∃ b, s = [b] := by
            cases s with
            | nil => simp at h1
            | cons a l =>
              cases l with
              | nil => exact ⟨a, rfl⟩
              | cons c m => simp at h1
          have hb : b < 128 := by simpa using h2
          show parseItem (f + 1) (b :: rest) = _
          rw [parseItem_succ_cons, if_pos hb]
        · rename_i hc
          split
          · rename_i hle
            show parseItem (f + 1) ((128 + s.length) :: (s ++ rest)) = _
            rw [parseItem_succ_cons, if_neg (by omega),
              if_pos (by omega : 128 + s.length < 184)]
            rw [show 128 + s.length - 128 = s.length from by omega, splitAt?_exact]
          · rename_i hgt
            have h56 : 55 < s.length := by omega
            have hL1 : beBytes s.length ≠ [] := beBytes_ne_nil s.length (by omega)
            have hL1' : 1 ≤ (beBytes s.length).length := by
              cases hbB : beBytes s.length with
              | nil => exact absurd hbB hL1
              | cons a l => simp
            have hL8 : (beBytes s.length).length ≤ 8 :=
              beBytes_length_le 8 s.length
                (by rw [show (256:Nat) ^ 8 = 2 ^ 64 from by norm_num]; exact hbd')
            show parseItem (f + 1)
              ((183 + (beBytes s.length).length) :: (beBytes s.length ++ s ++ rest)) = _
            rw [parseItem_succ_cons, if_neg (by omega), if_neg (by omega),
              if_pos (by omega : 183 + (beBytes s.length).length < 192)]
            rw [show 183 + (beBytes s.length).length - 183 = (beBytes s.length).length
              from by omega]
            simp only [List.append_assoc, splitAt?_exact, beVal_beBytes]
      | list items =>
        have hn1 : n - 1 < n := by
          have := rlpSz_pos (RlpItem.list items)
          omega
        have hszl : rlpSzList items ≤ n - 1 := by
          simp only [rlpSz] at hsz
          omega
        simp only [rlpBounded, Bool.and_eq_true, decide_eq_true_eq] at hbd
        obtain ⟨hpl, hbdl⟩ := hbd
        have hfl : rlpSzList items ≤ f := by
          simp only [rlpSz] at hfuel
          omega
        have hparse := (ih (n - 1) hn1).2 items hszl hbdl f hfl
        simp only [rlpSerialize]
        split
        · rename_i hle
          show parseItem (f + 1)
            ((192 + (rlpSerializeList items).length) :: (rlpSerializeList items ++ rest)) = _
          rw [parseItem_succ_cons, if_neg (by omega), if_neg (by omega),
            if_neg (by omega),
            if_pos (by omega : 192 + (rlpSerializeList items).length < 248)]
          rw [show 192 + (rlpSerializeList items).length - 192 =
            (rlpSerializeList items).length from by omega]
          simp only [splitAt?_exact, hparse]
        · rename_i hgt
          have hL1 : beBytes (rlpSerializeList items).length ≠ [] :=
            beBytes_ne_nil _ (by omega)
          have hL1' : 1 ≤ (beBytes (rlpSerializeList items).length).length := by
            cases hbB : beBytes (rlpSerializeList items).length with
            | nil => exact absurd hbB hL1
            | cons a l => simp
          have hL8 : (beBytes (rlpSerializeList items).length).length ≤ 8 :=
            beBytes_length_le 8 _
              (by rw [show (256:Nat) ^ 8 = 2 ^ 64 from by norm_num]; exact hpl)
          show parseItem (f + 1)
            ((247 + (beBytes (rlpSerializeList items).length).length) ::
              (beBytes (rlpSerializeList items).length ++ rlpSerializeList items ++ rest)) = _
          rw [parseItem_succ_cons, if_neg (by omega), if_neg (by omega),
            if_neg (by omega), if_neg (by omega)]
          rw [show 247 + (beBytes (rlpSerializeList items).length).length - 247 =
            (beBytes (rlpSerializeList items).length).length from by omega]
          simp only [List.append_assoc, splitAt?_exact, beVal_beBytes, hparse]
    · intro items hsz hbd fuel hfuel
      cases items with
      | nil =>
        cases fuel <;> rfl
      | cons i is =>
        obtain ⟨f, rfl⟩ : ∃ f, fuel = f + 1 := by
          cases fuel with
          | zero => exact absurd hfuel (by simp [rlpSzList])
          | succ f => exact ⟨f, rfl⟩
        have hn1 : n - 1 < n := by
          simp only [rlpSzList] at hsz
          omega
        simp only [rlpBoundedList, Bool.and_eq_true] at hbd
        obtain ⟨hbi, hbis⟩ := hbd
        obtain ⟨b, l', hser⟩ : ∃ b l', rlpSerialize i = b :: l' := by
          cases hx : rlpSerialize i with
          | nil => exact absurd hx (rlpSerialize_ne_nil i)
          | cons b l' => exact ⟨b, l', rfl⟩
        have hI := (ih (n - 1) hn1).1 i (by simp only [rlpSzList] at hsz; omega) hbi f
          (by simp only [rlpSzList] at hfuel; omega) (rlpSerializeList is)
        have hIs := (ih (n - 1) hn1).2 is (by simp only [rlpSzList] at hsz; omega) hbis f
          (by simp only [rlpSzList] at hfuel; omega)
        show parseItems (f + 1) (rlpSerializeList (i :: is)) = _
        rw [rlpSerializeList, hser, List.cons_append, parseItems_succ_cons,
          ← List.cons_append, ← hser, hI]
        simp [hIs]

theorem rlpSz_le_serialize : ∀ n : Nat,
    (∀ it, rlpSz it ≤ n → rlpSz it + 1 ≤ 2 * (rlpSerialize it).length) ∧
    (∀ items, rlpSzList items ≤ n →
      rlpSzList items ≤ 2 * (rlpSerializeList items).length) := by
  intro n
  induction n using Nat.strong_induction_on with
  | _ n ih =>
    constructor
    · intro it hsz
      cases it with
      | str s =>
        have h1 : 1 ≤ (rlpSerialize (RlpItem.str s)).length := by
          cases hx : rlpSerialize (RlpItem.str s) with
          | nil => exact absurd hx (rlpSerialize_ne_nil _)
          | cons b l => simp
        simp only [rlpSz]
        omega
      | list items =>
        have hn1 : n - 1 < n := by
          have := rlpSz_pos (RlpItem.list items)
          omega
        have hih := (ih (n - 1) hn1).2 items (by simp only [rlpSz] at hsz; omega)
        simp only [rlpSz, rlpSerialize]
        split <;> simp only [List.length_cons, List.length_append] <;> omega
    · intro items hsz
      cases items with
      | nil => simp [rlpSzList]
      | cons i is =>
        have hn1 : n - 1 < n := by
          simp only [rlpSzList] at hsz
          omega
        have hi := (ih (n - 1) hn1).1 i (by simp only [rlpSzList] at hsz; omega)
        have his := (ih (n - 1) hn1).2 is (by simp only [rlpSzList] at hsz; omega)
        have h1 : 1 ≤ (rlpSerialize i).length := by
          cases hx : rlpSerialize i with
          | nil => exact absurd hx (rlpSerialize_ne_nil _)
          | cons b l => simp
        simp only [rlpSzList, rlpSerializeList, List.length_append]
        omega

/-- Byte-level round trip: decoding the serialization of a bounded item
gives the item back. -/
theorem rlpDecodeBytes_serialize (it : RlpItem) (hbd : rlpBounded it = true) :
    rlpDecodeBytes (rlpSerialize it) = some it := by
  have hle : rlpSz it ≤ 2 * (rlpSerialize it).length + 1 := by
    have := (rlpSz_le_serialize (rlpSz it)).1 it le_rfl
    omega
  have h1 := (parse_serialize_aux (rlpSz it)).1 it le_rfl hbd
    (2 * (rlpSerialize it).length + 1) hle []
  rw [List.append_nil] at h1
  rw [rlpDecodeBytes, h1]

/-! ## Round-trip lemmas for the struct codec -/
theorem beBytes_zero : beBytes 0 = [] := by
  rw [beBytes]
  simp

theorem decUint_encUint (k n : Nat) (h : n < 256 ^ k) : decUint k (encUint n) = some n := by
  by_cases h0 : n = 0
  · subst h0
    simp [decUint, encUint, beBytes_zero, beVal]
  · obtain ⟨b, bs, hbs, hb⟩ := beBytes_head n h0
    have hlen := beBytes_length_le k n h
    rw [hbs] at hlen
    simp only [decUint, encUint, hbs]
    rw [if_pos ⟨hlen, Or.inr (by simpa using hb)⟩, ← hbs, beVal_beBytes]

theorem decBytes_encBytes (s : Bytes) : decBytes (encBytes s) = some s := rfl

theorem decHash_encBytes (s : Bytes) (h : s.length = 32) :
    decHash (encBytes s) = some s := by
  simp [decHash, encBytes, h]

theorem decOptAddr_enc (a : Option Bytes) (h : wfOptAddr a = true) :
    decOptAddr (encOptAddr a) = some a := by
  cases a with
  | none => rfl
  | some s =>
    have hlen : s.length = 20 := by simpa [wfOptAddr] using h
    cases s with
    | nil => simp at hlen
    | cons x xs => simp [decOptAddr, encOptAddr, hlen]

theorem decOptBig_enc (v : Option Nat) :
    decOptBig (encOptBig v) = some (normValue v) := by
  cases v with
  | none => rfl
  | some n =>
    cases n with
    | zero => simp [decOptBig, encOptBig, beBytes_zero, normValue]
    | succ m =>
      obtain ⟨b, bs, hbs, hb⟩ := beBytes_head (m + 1) (by omega)
      simp only [encOptBig, decOptBig, hbs, normValue]
      rw [if_pos (by simpa using hb), ← hbs, beVal_beBytes]

theorem decBlockNumber_enc (v : Option Nat) (h : v.isSome = true) :
    decBlockNumber (encBlockNumber v) = some v := by
  cases v with
  | none => simp at h
  | some n =>
    cases n with
    | zero => simp [decBlockNumber, encBlockNumber, beBytes_zero]
    | succ m =>
      obtain ⟨b, bs, hbs, hb⟩ := beBytes_head (m + 1) (by omega)
      simp only [encBlockNumber, decBlockNumber, hbs]
      rw [if_pos (by simpa using hb), ← hbs, beVal_beBytes]

theorem decGoString_enc (s : String) : decGoString (encGoString s) = some s := by
  simp only [decGoString, encGoString, List.map_map]
  rw [show (Char.ofNat ∘ Char.toNat) = id from funext Char.ofNat_toNat, List.map_id]
  rfl

theorem decResult_enc (r : InternalTraceActionResult) (h : wfResult (some r) = true) :
    decResult (encResult r) = some r := by
  simp only [wfResult, Bool.and_eq_true, decide_eq_true_eq] at h
  obtain ⟨hg, ha⟩ := h
  simp [decResult, encResult,
    decUint_encUint 8 r.gasUsed (by simpa [show (256:Nat) ^ 8 = 2 ^ 64 from by norm_num] using hg),
    decBytes_encBytes, decOptAddr_enc _ ha]

theorem decOptResult_enc (r : Option InternalTraceActionResult)
    (h : wfResult r = true) : decOptResult (encOptResult r) = some r := by
  cases r with
  | none => rfl
  | some r =>
    have hred : decOptResult (encOptResult (some r)) =
        (decResult (encResult r)).map some := by
      simp only [encOptResult, encResult]
      rfl
    rw [hred, decResult_enc r h]
    rfl

theorem decAction_enc (a : InternalAction) (h : wfAction a = true) :
    decAction (encAction a) = some (normAction a) := by
  simp only [wfAction, Bool.and_eq_true, decide_eq_true_eq] at h
  obtain ⟨⟨⟨⟨⟨hct, hf⟩, ht⟩, hg⟩, had⟩, hra⟩ := h
  simp [decAction, encAction,
    decUint_encUint 1 a.callType (by simpa [show (256:Nat) ^ 1 = 2 ^ 8 from by norm_num] using hct),
    decUint_encUint 8 a.gas (by simpa [show (256:Nat) ^ 8 = 2 ^ 64 from by norm_num] using hg),
    decOptAddr_enc _ hf, decOptAddr_enc _ ht, decOptAddr_enc _ had, decOptAddr_enc _ hra,
    decOptBig_enc, decBytes_encBytes, normAction]

theorem mapM_decUint_encUint (l : List Nat) (h : ∀ x ∈ l, x < 2 ^ 32) :
    (l.map encUint).mapM (decUint 4) = some l := by
  induction l with
  | nil => rfl
  | cons x xs ih =>
    have hx : x < 256 ^ 4 := by
      have hh := h x (List.mem_cons_self x xs)
      norm_num at hh ⊢
      exact hh
    rw [List.map_cons, List.mapM_cons, decUint_encUint 4 x hx,
      ih (fun y hy => h y (List.mem_cons_of_mem x hy))]
    simp only [Option.pure_def, Option.bind_some, Option.bind_eq_bind, Option.some_bind]

theorem decTrace_enc (t : InternalActionTrace) (h : wfTrace t = true) :
    decTrace (encTrace t) = some (normTrace t) := by
  simp only [wfTrace, Bool.and_eq_true, decide_eq_true_eq, List.all_eq_true] at h
  obtain ⟨⟨⟨⟨ha, hr⟩, hta⟩, hst⟩, _⟩ := h
  have hst' : t.subtraces < 256 ^ 4 := by
    norm_num at hst ⊢
    exact hst
  have hta' : ∀ x ∈ t.traceAddress, x < 2 ^ 32 := by
    intro x hx
    simpa using hta x hx
  simp only [encTrace, decTrace]
  rw [decAction_enc _ ha, decOptResult_enc _ hr, decGoString_enc,
    mapM_decUint_encUint t.traceAddress hta', decUint_encUint 4 t.subtraces hst']
  simp [normTrace]

theorem decTraceList_enc (l : List InternalActionTrace)
    (h : ∀ t ∈ l, wfTrace t = true) :
    decTraceList (.list (l.map encTrace)) = some (l.map normTrace) := by
  simp only [decTraceList]
  induction l with
  | nil => rfl
  | cons t ts ih =>
    simp only [List.map_cons, List.mapM_cons,
      decTrace_enc t (h t (List.mem_cons_self t ts)),
      ih (fun y hy => h y (List.mem_cons_of_mem t hy))]
    rfl

theorem decTraces_enc (it : InternalActionTraces) (h : WellFormedTraces it = true) :
    decTraces (encTraces it) = some (normTraces it) := by
  simp only [WellFormedTraces, Bool.and_eq_true, decide_eq_true_eq,
    List.all_eq_true] at h
  obtain ⟨⟨⟨⟨⟨htr, hbh⟩, hbn⟩, hth⟩, htp⟩, _⟩ := h
  have htp' : it.transactionPosition < 256 ^ 8 := by
    norm_num at htp ⊢
    exact htp
  simp only [encTraces, decTraces]
  rw [show decTraceList (RlpItem.list (it.traces.map encTrace)) =
        some (it.traces.map normTrace) from
      decTraceList_enc it.traces (fun t ht => htr t ht),
    decHash_encBytes _ hbh, decHash_encBytes _ hth, decBlockNumber_enc _ hbn,
    decUint_encUint 8 it.transactionPosition htp']
  simp [normTraces]

/-! ## Rendering is invariant under the codec normalization -/
theorem toRpcTraceOne_normTrace (it : InternalActionTraces) (x : InternalActionTrace) :
    toRpcTraceOne it (normTrace x) = toRpcTraceOne it x := by
  obtain ⟨⟨ct, f, t, v, g, ini, inp, ad, ra, b⟩, r, e, ta, st⟩ := x
  rcases v with _ | ⟨_ | n⟩ <;> rcases b with _ | ⟨_ | m⟩ <;>
    simp [normTrace, normAction, normValue, toRpcTraceOne, toRpcTraceCreate,
      toRpcTraceCall, toRpcTraceSuicide]

theorem mapM_normTrace (it : InternalActionTraces) :
    ∀ l : List InternalActionTrace,
      (l.map normTrace).mapM (toRpcTraceOne it) = l.mapM (toRpcTraceOne it) := by
  intro l
  induction l with
  | nil => rfl
  | cons x xs ih =>
    rw [List.map_cons, List.mapM_cons, List.mapM_cons, toRpcTraceOne_normTrace, ih]

theorem ToRpcTraces_normTraces (t : InternalActionTraces) :
    ToRpcTraces (normTraces t) = ToRpcTraces t := by
  have h1 : ToRpcTraces (normTraces t) =
      (t.traces.map normTrace).mapM (toRpcTraceOne t) := rfl
  rw [h1, mapM_normTrace]
  rfl

theorem toRpcTraceOne_isSome (it : InternalActionTraces) (x : InternalActionTrace)
    (h : wfTrace x = true) : (toRpcTraceOne it x).isSome = true := by
  simp only [wfTrace, Bool.and_eq_true] at h
  obtain ⟨-, hlast⟩ := h
  by_cases hsu : x.action.callType = CallTypeSuicide
  · simp [toRpcTraceOne, hsu, CallTypeSuicide, CallTypeCreate]
  · rw [if_neg hsu] at hlast
    simp only [Bool.or_eq_true, decide_eq_true_eq, ne_eq] at hlast
    by_cases hct : x.action.callType = CallTypeCreate
    · rcases hlast with he | hr
      · simp [toRpcTraceOne, hct, toRpcTraceCreate, he]
      · obtain ⟨r, hr'⟩ := Option.isSome_iff_exists.mp hr
        by_cases he : x.error = ""
        · simp [toRpcTraceOne, hct, toRpcTraceCreate, he, hr']
        · simp [toRpcTraceOne, hct, toRpcTraceCreate, he]
    · rcases hlast with he | hr
      · simp [toRpcTraceOne, hct, hsu, toRpcTraceCall, he]
      · obtain ⟨r, hr'⟩ := Option.isSome_iff_exists.mp hr
        by_cases he : x.error = ""
        · simp [toRpcTraceOne, hct, hsu, toRpcTraceCall, he, hr']
        · simp [toRpcTraceOne, hct, hsu, toRpcTraceCall, he]

theorem mapM_isSome {α β : Type} (f : α → Option β) :
    ∀ l : List α, (∀ x ∈ l, (f x).isSome = true) → (l.mapM f).isSome = true := by
  intro l
  induction l with
  | nil => intro _; rfl
  | cons x xs ih =>
    intro h
    rw [List.mapM_cons]
    obtain ⟨b, hb⟩ := Option.isSome_iff_exists.mp (h x (List.mem_cons_self x xs))
    obtain ⟨bs, hbs⟩ := Option.isSome_iff_exists.mp
      (ih (fun y hy => h y (List.mem_cons_of_mem x hy)))
    rw [hb, hbs]
    rfl

/-- C7: the storage round trip.  For every well-formed trace set `t`,
decoding `toStorageForm t` succeeds and the decoded set renders to exactly
the same API-form traces as `t` itself; moreover rendering `t` does not
panic.  (The decoded set is `normTraces t`: the only wire conflation is a
present zero big.Int collapsing to nil, which rendering cannot observe.) -/
theorem storage_roundtrip (t : InternalActionTraces)
    (h : WellFormedTraces t = true) :
    ∃ t', decodeStorage (toStorageForm t) = some t' ∧
      ToRpcTraces t' = ToRpcTraces t ∧ (ToRpcTraces t).isSome = true := by
  have hbd : rlpBounded (encTraces t) = true := by
    simp only [WellFormedTraces, Bool.and_eq_true] at h
    exact h.2
  have h1 : decodeStorage (toStorageForm t) = some (normTraces t) := by
    unfold decodeStorage toStorageForm
    rw [rlpDecodeBytes_serialize _ hbd]
    simp only [Option.some_bind]
    exact decTraces_enc t h
  have hall : ∀ x ∈ t.traces, wfTrace x = true := by
    simp only [WellFormedTraces, Bool.and_eq_true, List.all_eq_true] at h
    exact fun x hx => h.1.1.1.1.1 x hx
  exact ⟨normTraces t, h1, ToRpcTraces_normTraces t,
    mapM_isSome (toRpcTraceOne t) t.traces
      (fun x hx => toRpcTraceOne_isSome t x (hall x hx))⟩

theorem storage_roundtrip_witness :
    WellFormedTraces sampleTraceSet = true ∧
    (∃ t', decodeStorage (toStorageForm sampleTraceSet) = some t' ∧
      ToRpcTraces t' = ToRpcTraces sampleTraceSet ∧
      (ToRpcTraces sampleTraceSet).isSome = true) := by
  have hwf : WellFormedTraces sampleTraceSet = true := by
    simp [WellFormedTraces, sampleTraceSet, encTraces, encUint, encBytes,
      encBlockNumber, beBytes_zero, rlpBounded, rlpBoundedList, rlpSerializeList,
      rlpSerialize]
  exact ⟨hwf, storage_roundtrip _ hwf⟩

/-- C9: reading from the store.  An empty payload is reported as the
distinct not-found error (never as a decoded empty trace); a non-empty
payload that decodes is rendered through `ToRpcTraces` and returned; a
non-empty payload that fails to decode is reported as a decode error. -/
theorem read_trace_semantics (txHash : Bytes) (raw : List Nat)
    (t : InternalActionTraces) (rpc : List RpcActionTrace) :
    (ReadRpcTxTrace txHash (.ok []) = some (.error (notFoundMsg txHash)) ∧
      ∀ l : List RpcActionTrace, ReadRpcTxTrace txHash (.ok []) ≠ some (.ok l)) ∧
    (raw ≠ [] → decodeStorage raw = some t → ToRpcTraces t = some rpc →
      ReadRpcTxTrace txHash (.ok raw) = some (.ok rpc)) ∧
    (raw ≠ [] → decodeStorage raw = none →
      ReadRpcTxTrace txHash (.ok raw) = some (.error decodeFailMsg)) := by
  refine ⟨⟨?_, ?_⟩, ?_, ?_⟩
  · simp [ReadRpcTxTrace]
  · intro l hl
    simp [ReadRpcTxTrace] at hl
  · intro hne hdec hrpc
    simp [ReadRpcTxTrace, hne, hdec, hrpc]
  · intro hne hdec
    simp [ReadRpcTxTrace, hne, hdec]

theorem read_trace_semantics_witness :
    ReadRpcTxTrace [] (.ok (248 :: 69 :: 192 :: 160 :: (List.replicate 32 0 ++
        128 :: 160 :: (List.replicate 32 0 ++ [128])))) = some (.ok []) ∧
    ReadRpcTxTrace [] (.ok [0]) = some (.error decodeFailMsg) := by
  constructor
  · exact (read_trace_semantics [] (248 :: 69 :: 192 :: 160 :: (List.replicate 32 0 ++
        128 :: 160 :: (List.replicate 32 0 ++ [128]))) sampleTraceSet []).2.1
      (by decide) (by decide) (by decide)
  · exact (read_trace_semantics [] [0] sampleTraceSet []).2.2
      (by decide) (by decide)

/-! ## C8 proof: the child loop matches the claim-side flatten -/
theorem processChild_eq_spec (g : Nat) (c : ActionTrace) :
    processChild g c = specRenderChild g c := by
  obtain ⟨kids, sub, ta, tt, act, res, err, bh, bn, th, tp⟩ := c
  have hgas : ∀ r : TResult,
      (if g > r.gasUsed then g - r.gasUsed else r.gasUsed) =
      (if g - r.gasUsed > 0 then g - r.gasUsed else r.gasUsed) := by
    intro r
    by_cases h : g > r.gasUsed
    · rw [if_pos h, if_pos (by omega)]
    · rw [if_neg h, if_neg (by omega)]
  cases res with
  | none =>
    simp only [processChild, specRenderChild, ActionTrace.result,
      ActionTrace.traceType, SELFDESTRUCT]
    split <;>
      simp [ActionTrace.setGas, ActionTrace.clearFrom, ActionTrace.dropResult]
  | some r =>
    simp only [processChild, specRenderChild, ActionTrace.result,
      ActionTrace.traceType, SELFDESTRUCT, hgas r]
    split <;>
      simp [ActionTrace.setGas, ActionTrace.clearFrom, ActionTrace.dropResult]

theorem eraseSubtraces_setSubtraces (t : ActionTrace) (k : Nat) :
    eraseSubtraces (t.setSubtraces k) = eraseSubtraces t := by
  obtain ⟨kids, sub, ta, tt, act, res, err, bh, bn, th, tp⟩ := t
  rfl

theorem flatten_aux : ∀ n : Nat, ∀ (parentGas : Nat) (cs : List ActionTrace),
    sizeOf cs ≤ n →
    (processChildren parentGas cs).map eraseSubtraces =
      (flattenSpec parentGas cs).map eraseSubtraces := by
  intro n
  induction n using Nat.strong_induction_on with
  | _ n ih =>
    intro parentGas cs hsz
    match cs with
    | [] => simp [processChildren, flattenSpec]
    | .mk kids sub ta tt act res err bh bn th tp :: rest =>
      have hk : sizeOf kids <
          sizeOf (ActionTrace.mk kids sub ta tt act res err bh bn th tp :: rest) := by
        simp
        omega
      have hr : sizeOf rest <
          sizeOf (ActionTrace.mk kids sub ta tt act res err bh bn th tp :: rest) := by
        simp
      have e1 : ∀ g', (processChildren g' kids).map eraseSubtraces =
          (flattenSpec g' kids).map eraseSubtraces :=
        fun g' => ih (sizeOf kids) (lt_of_lt_of_le hk hsz) g' kids (le_refl _)
      have e2 : ∀ g', (processChildren g' rest).map eraseSubtraces =
          (flattenSpec g' rest).map eraseSubtraces :=
        fun g' => ih (sizeOf rest) (lt_of_lt_of_le hr hsz) g' rest (le_refl _)
      simp only [processChildren, flattenSpec, List.map_append, List.map_cons,
        processChild_eq_spec, eraseSubtraces_setSubtraces, e1, e2]

/-- C8: the post-processing pass.  For every node, `processTrace` sets the
node's own subtrace count, and the list of descendants it appends equals —
child for child, up to the subtrace counters the pass also maintains — the
claim-side preorder flatten: each child rendered by the gas rule
(`parent.gas − result.gasUsed` when positive, else `result.gasUsed`) and
the SELFDESTRUCT clearing (gas zeroed, `from` cleared, result dropped),
followed recursively by its own processed children. -/
theorem tree_processTrace_flatten (t : ActionTrace) :
    ((processTrace t).2).map eraseSubtraces =
      (flattenSpec t.action.gas t.childTraces).map eraseSubtraces ∧
    (processTrace t).1 = t.setSubtraces t.childTraces.length :=
  ⟨flatten_aux (sizeOf t.childTraces) t.action.gas t.childTraces (le_refl _), rfl⟩

end EtherTrace
